import Mathlib

/-!
Verification development for the roadmap ingestion-and-reconciliation pipeline
of the `impactsolutionroadmap.sh` repository.

The development shallowly embeds the core of the application:

* `safeJsonParse` / `processStreamedResponse` from `src/services/geminiService.ts`
  (fence-regex extraction of a JSON candidate, strict parse, structural check);
* the `App.tsx` state handlers: history loading from the durable slot,
  `handleGenerate`'s `onComplete` sanitization, `handleSaveOrUpdateRoadmap`
  (upsert), `handleDeleteRoadmap`, and `handleToggleNodeCompletion`.

JavaScript strings are modeled as `List Char`.  JSON values are modeled by the
mutually inductive `Json` / `JsonList` / `JsonFields` (object fields keep
insertion order; `JSON.parse` collapses duplicate keys last-wins in first
position, as in JavaScript).  JSON numbers are modeled as integers: the only
numeric data the pipeline itself produces or consumes are integral timestamps,
and no claim touches fractional numbers.  `Date.now()` is modeled by an
explicit `now : Nat` parameter, and each `Math.random().toString(36).substr(2, 9)`
draw made while sanitizing node `i` is modeled by `rng i` for an explicit
`rng : Nat → List Char` (real `Math.random` draws are not guaranteed distinct,
so `rng` is unconstrained).
-/

/-- JavaScript strings are modeled as lists of unicode scalar characters. -/
abbrev JStr := List Char

/-- The backtick character, written via its code point. -/
def tickChar : Char := Char.ofNat 96

/-- Whitespace for JavaScript's `\s` regex class and `String.prototype.trim`. -/
def isJsWs (c : Char) : Bool :=
  c = ' ' || c = '\t' || c = '\n' || c = '\r' || c.toNat = 11 || c.toNat = 12 ||
  c.toNat = 0xa0 || c.toNat = 0x1680 || (0x2000 ≤ c.toNat && c.toNat ≤ 0x200a) ||
  c.toNat = 0x2028 || c.toNat = 0x2029 || c.toNat = 0x202f || c.toNat = 0x205f ||
  c.toNat = 0x3000 || c.toNat = 0xfeff

/-- Model of `text.trim()`: drop JS whitespace from both ends. -/
def trimChars (cs : JStr) : JStr :=
  ((cs.dropWhile isJsWs).reverse.dropWhile isJsWs).reverse

/-- Does the text start with three backticks?  (The literal triple backtick of
the fence regex.) -/
def startsTicks : JStr → Bool
  | a :: b :: c :: _ => a = tickChar && b = tickChar && c = tickChar
  | _ => false

/-- Does the text contain a triple backtick anywhere? -/
def hasTicks3 : JStr → Bool
  | [] => false
  | c :: rest => startsTicks (c :: rest) || hasTicks3 rest

/-- Lazy part of the fence regex `(?:json)?\s*([\s\S]*?)\s*` followed by the
closing triple backtick.  At each position we first try to finish the match:
the trailing greedy `\s*` must consume a whitespace run that ends directly at
a triple backtick; since a backtick is not whitespace, the only candidate run
is the maximal one.  If finishing fails, the lazy group absorbs one more
character.  `acc` holds the group matched so far, reversed. -/
def lazyScan : JStr → JStr → Option JStr
  | acc, [] => if startsTicks (List.dropWhile isJsWs []) then some acc.reverse else none
  | acc, c :: rest =>
    if startsTicks ((c :: rest).dropWhile isJsWs) then some acc.reverse
    else lazyScan (c :: acc) rest

/-- Attempt of the regex at the head of the text: the opening triple backtick,
then the greedy `(?:json)?` (consuming a literal `json` never turns an
otherwise successful match into a failure, since the closing triple backtick
cannot start inside those four letters, so consume-if-present is faithful),
then the greedy leading `\s*` (likewise, shorter whitespace runs leave a
whitespace character where the closing backticks would have to start, so only
the maximal run matters for matchability, and greedy tries it first). -/
def tryFenceAt (cs : JStr) : Option JStr :=
  match cs with
  | a :: b :: c :: rest =>
    if a = tickChar && b = tickChar && c = tickChar then
      let rest2 : JStr :=
        match rest with
        | 'j' :: 's' :: 'o' :: 'n' :: r => r
        | _ => rest
      lazyScan [] (rest2.dropWhile isJsWs)
    else none
  | _ => none

/-- Model of `jsonText.match(/` followed by three backticks, `(?:json)?\s*([\s\S]*?)\s*`
and three closing backticks `/)`: the leftmost position at which the pattern
matches wins, and the returned value is the first capture group. -/
def fenceMatch : JStr → Option JStr
  | [] => none
  | c :: rest =>
    match tryFenceAt (c :: rest : JStr) with
    | some g => some g
    | none => fenceMatch rest

mutual
/-- Untrusted JSON values, as produced by `JSON.parse`. -/
inductive Json where
  | null : Json
  | bool : Bool → Json
  | num : Int → Json
  | str : JStr → Json
  | arr : JsonList → Json
  | obj : JsonFields → Json
deriving DecidableEq
/-- A sequence of JSON array elements. -/
inductive JsonList where
  | nil : JsonList
  | cons : Json → JsonList → JsonList
deriving DecidableEq
/-- Ordered object fields (key/value pairs). -/
inductive JsonFields where
  | nil : JsonFields
  | cons : JStr → Json → JsonFields → JsonFields
deriving DecidableEq
end

/-- Convert a `JsonList` to a Lean list. -/
def JsonList.toList : JsonList → List Json
  | .nil => []
  | .cons x xs => x :: xs.toList

/-- Convert a Lean list to a `JsonList`. -/
def jsonListOf : List Json → JsonList
  | [] => .nil
  | x :: xs => .cons x (jsonListOf xs)

/-- Lookup of a field by key (first occurrence). -/
def JsonFields.getKey : JsonFields → JStr → Option Json
  | .nil, _ => none
  | .cons k v rest, key => if k = key then some v else rest.getKey key

/-- Does a field with this key exist? -/
def JsonFields.hasKey : JsonFields → JStr → Bool
  | .nil, _ => false
  | .cons k _ rest, key => k = key || rest.hasKey key

/-- Model of a JavaScript property write (and of spread-override): if the key
exists, its first occurrence keeps its position and receives the new value;
otherwise the pair is appended at the end. -/
def JsonFields.setKey : JsonFields → JStr → Json → JsonFields
  | .nil, key, v => .cons key v .nil
  | .cons k w rest, key, v =>
    if k = key then .cons k v rest else .cons k w (rest.setKey key v)

/-- Property access `x.key`, returning `none` for JavaScript `undefined`
(missing key, or access on a non-object). -/
def jsGet (j : Json) (key : JStr) : Option Json :=
  match j with
  | .obj fs => fs.getKey key
  | _ => none

/-- JavaScript truthiness of a JSON value (`NaN` cannot arise from
`JSON.parse`; arrays and objects are always truthy). -/
def jsTruthy : Json → Bool
  | .null => false
  | .bool b => b
  | .num i => i != 0
  | .str s => s != []
  | .arr _ => true
  | .obj _ => true

/-- Truthiness of a possibly-`undefined` value. -/
def optTruthy : Option Json → Bool
  | none => false
  | some v => jsTruthy v

/-- Model of `Array.isArray` on a possibly-`undefined` value. -/
def isArrOpt : Option Json → Bool
  | some (.arr _) => true
  | _ => false

/-- Model of `a || b` where `a` may be `undefined`: the left value if truthy,
else the default. -/
def jsOr (a : Option Json) (b : Json) : Json :=
  match a with
  | some v => if jsTruthy v then v else b
  | none => b

/-- Lowercase hexadecimal digit, as emitted by `JSON.stringify` escapes. -/
def hexDigit (n : Nat) : Char :=
  if n < 10 then Char.ofNat (48 + n) else Char.ofNat (87 + n)

/-- Escape of one character inside a JSON string, as `JSON.stringify` emits it:
quote and backslash get a backslash escape, the named control characters get
their short escapes, remaining control characters get `\u00XX`, and everything
else is emitted verbatim. -/
def escChar (c : Char) : JStr :=
  if c = '"' then ['\\', '"']
  else if c = '\\' then ['\\', '\\']
  else if c = '\n' then ['\\', 'n']
  else if c = '\r' then ['\\', 'r']
  else if c = '\t' then ['\\', 't']
  else if c.toNat = 8 then ['\\', 'b']
  else if c.toNat = 12 then ['\\', 'f']
  else if c.toNat < 32 then
    ['\\', 'u', '0', '0', hexDigit (c.toNat / 16), hexDigit (c.toNat % 16)]
  else [c]

/-- Escape a whole string body. -/
def escList : JStr → JStr
  | [] => []
  | c :: rest => escChar c ++ escList rest

/-- Decimal digit character. -/
def digitChar (n : Nat) : Char := Char.ofNat (48 + n)

/-- Decimal digits of a natural number, most significant first (fueled so that
the kernel can evaluate it; `natStr` supplies sufficient fuel). -/
def natDigitsAux : Nat → Nat → JStr
  | 0, _ => []
  | fuel + 1, n =>
    if n < 10 then [digitChar n]
    else natDigitsAux fuel (n / 10) ++ [digitChar (n % 10)]

/-- Decimal representation of a natural number. -/
def natStr (n : Nat) : JStr := natDigitsAux (n + 1) n

/-- Decimal representation of an integer. -/
def intStr (i : Int) : JStr :=
  if i < 0 then '-' :: natStr i.natAbs else natStr i.natAbs

mutual
/-- Model of `JSON.stringify` on a JSON value (no indentation argument). -/
def printJson : Json → JStr
  | .null => 'n' :: 'u' :: 'l' :: 'l' :: []
  | .bool true => 't' :: 'r' :: 'u' :: 'e' :: []
  | .bool false => 'f' :: 'a' :: 'l' :: 's' :: 'e' :: []
  | .num i => intStr i
  | .str s => '"' :: escList s ++ ['"']
  | .arr xs => '[' :: printElems xs ++ [']']
  | .obj fs => '{' :: printFields fs ++ ['}']
/-- Comma-separated array elements. -/
def printElems : JsonList → JStr
  | .nil => []
  | .cons x .nil => printJson x
  | .cons x (.cons y ys) => printJson x ++ ',' :: printElems (.cons y ys)
/-- Comma-separated `"key":value` object members. -/
def printFields : JsonFields → JStr
  | .nil => []
  | .cons k v .nil => '"' :: escList k ++ '"' :: ':' :: printJson v
  | .cons k v (.cons k2 v2 fs) =>
    '"' :: escList k ++ '"' :: ':' :: printJson v ++ ',' :: printFields (.cons k2 v2 fs)
end

/-- Whitespace accepted by `JSON.parse` between tokens. -/
def isJsonWs (c : Char) : Bool :=
  c = ' ' || c = '\t' || c = '\n' || c = '\r'

/-- Skip JSON inter-token whitespace. -/
def skipJWs (cs : JStr) : JStr := cs.dropWhile isJsonWs

/-- Value of a hexadecimal digit, if the character is one. -/
def hexVal (c : Char) : Option Nat :=
  if 48 ≤ c.toNat && c.toNat ≤ 57 then some (c.toNat - 48)
  else if 97 ≤ c.toNat && c.toNat ≤ 102 then some (c.toNat - 87)
  else if 65 ≤ c.toNat && c.toNat ≤ 70 then some (c.toNat - 55)
  else none

/-- Body of a JSON string literal after the opening quote: decode escapes,
reject raw control characters, stop at the closing quote.  `acc` holds the
decoded characters, reversed. -/
def parseStrBody : JStr → JStr → Option (JStr × JStr)
  | _, [] => none
  | acc, c :: rest =>
    if c = '"' then some (acc.reverse, rest)
    else if c = '\\' then
      match rest with
      | [] => none
      | e :: rest2 =>
        if e = 'u' then
          match rest2 with
          | h1 :: h2 :: h3 :: h4 :: rest3 =>
            (match hexVal h1, hexVal h2, hexVal h3, hexVal h4 with
             | some a, some b, some c2, some d =>
               parseStrBody (Char.ofNat (((a * 16 + b) * 16 + c2) * 16 + d) :: acc) rest3
             | _, _, _, _ => none)
          | _ => none
        else if e = '"' then parseStrBody ('"' :: acc) rest2
        else if e = '\\' then parseStrBody ('\\' :: acc) rest2
        else if e = '/' then parseStrBody ('/' :: acc) rest2
        else if e = 'b' then parseStrBody (Char.ofNat 8 :: acc) rest2
        else if e = 'f' then parseStrBody (Char.ofNat 12 :: acc) rest2
        else if e = 'n' then parseStrBody ('\n' :: acc) rest2
        else if e = 'r' then parseStrBody ('\r' :: acc) rest2
        else if e = 't' then parseStrBody ('\t' :: acc) rest2
        else none
    else if c.toNat < 32 then none
    else parseStrBody (c :: acc) rest

/-- Maximal run of decimal digits with its value (at least one digit
required).  Leading-zero rejection is not modeled; no claim depends on it. -/
def parseNatDigits (cs : JStr) : Option (Nat × JStr) :=
  let ds := cs.takeWhile Char.isDigit
  if ds = [] then none
  else some (ds.foldl (fun a c => a * 10 + (c.toNat - 48)) 0, cs.dropWhile Char.isDigit)

mutual
/-- Model of `JSON.parse`'s value grammar (fueled; `jsonParse` supplies
sufficient fuel).  Leading whitespace is skipped, then the value form is
dispatched on the first character. -/
def parseVal : Nat → JStr → Option (Json × JStr)
  | 0, _ => none
  | fuel + 1, cs =>
    match skipJWs cs with
    | [] => none
    | c :: rest =>
      if c = '{' then
        match skipJWs rest with
        | [] => none
        | c2 :: r2 =>
          if c2 = '}' then some (.obj .nil, r2)
          else parseMembers fuel (c2 :: r2) .nil
      else if c = '[' then
        match skipJWs rest with
        | [] => none
        | c2 :: r2 =>
          if c2 = ']' then some (.arr .nil, r2)
          else parseElems fuel (c2 :: r2) []
      else if c = '"' then
        match parseStrBody [] rest with
        | some (s, r2) => some (.str s, r2)
        | none => none
      else if c = 't' then
        match rest with
        | 'r' :: 'u' :: 'e' :: r2 => some (.bool true, r2)
        | _ => none
      else if c = 'f' then
        match rest with
        | 'a' :: 'l' :: 's' :: 'e' :: r2 => some (.bool false, r2)
        | _ => none
      else if c = 'n' then
        match rest with
        | 'u' :: 'l' :: 'l' :: r2 => some (.null, r2)
        | _ => none
      else if c = '-' then
        match parseNatDigits rest with
        | some (n, r2) => some (.num (-(n : Int)), r2)
        | none => none
      else if c.isDigit then
        match parseNatDigits (c :: rest) with
        | some (n, r2) => some (.num (n : Int), r2)
        | none => none
      else none
/-- Array elements after the opening bracket (nonempty case); `acc` holds the
elements parsed so far, reversed. -/
def parseElems : Nat → JStr → List Json → Option (Json × JStr)
  | 0, _, _ => none
  | fuel + 1, cs, acc =>
    match parseVal fuel cs with
    | some (v, r) =>
      (match skipJWs r with
       | ',' :: r2 => parseElems fuel r2 (v :: acc)
       | ']' :: r2 => some (.arr (jsonListOf (v :: acc).reverse), r2)
       | _ => none)
    | none => none
/-- Object members after the opening brace (nonempty case); duplicate keys
keep their first position and take the latest value, as in JavaScript. -/
def parseMembers : Nat → JStr → JsonFields → Option (Json × JStr)
  | 0, _, _ => none
  | fuel + 1, cs, acc =>
    match cs with
    | '"' :: rest =>
      (match parseStrBody [] rest with
       | some (k, r1) =>
         (match skipJWs r1 with
          | ':' :: r2 =>
            (match parseVal fuel r2 with
             | some (v, r3) =>
               (match skipJWs r3 with
                | ',' :: r4 => parseMembers fuel (skipJWs r4) (acc.setKey k v)
                | '}' :: r4 => some (.obj (acc.setKey k v), r4)
                | _ => none)
             | none => none)
          | _ => none)
       | none => none)
    | _ => none
end

/-- Model of `JSON.parse`: parse one value and require only whitespace after
it.  The fuel `2 * length + 2` dominates the recursion depth, which consumes
at least one character per two fuel steps. -/
def jsonParse (s : JStr) : Option Json :=
  match parseVal (2 * s.length + 2) s with
  | some (j, rest) => if skipJWs rest = [] then some j else none
  | none => none

instance {ε α : Type} [DecidableEq ε] [DecidableEq α] : DecidableEq (Except ε α) := fun a b =>
  match a, b with
  | .error e, .error f =>
    if h : e = f then .isTrue (congrArg Except.error h)
    else .isFalse fun hh => h (Except.error.inj hh)
  | .ok x, .ok y =>
    if h : x = y then .isTrue (congrArg Except.ok h)
    else .isFalse fun hh => h (Except.ok.inj hh)
  | .error _, .ok _ => .isFalse fun hh => Except.noConfusion hh
  | .ok _, .error _ => .isFalse fun hh => Except.noConfusion hh

/-- Error message raised by `safeJsonParse` when the candidate is empty. -/
def extractErrMsg : JStr :=
  ("Could not extract JSON from the AI's final response.").data

/-- JavaScript parse failures surface as a `SyntaxError`; the pipeline only
cares that an error is thrown, so one representative message is used. -/
def malformedErrMsg : JStr := ("SyntaxError: JSON.parse failure").data

/-- Error message of the structural check in `processStreamedResponse`. -/
def structuralErrMsg : JStr :=
  ("AI failed to generate a valid roadmap structure. The response was missing critical fields like title or nodes.").data

/-- The JSON candidate chosen by `safeJsonParse` (geminiService.ts lines
30-34): trim the text, then replace it by the fence capture group when the
fence regex matches with a truthy (nonempty) group. -/
def jsonCandidate (text : JStr) : JStr :=
  let t := trimChars text
  match fenceMatch t with
  | some g => if g = [] then t else g
  | none => t

/-- Model of `safeJsonParse` (geminiService.ts lines 29-41): choose the
candidate, fail if it is empty, then strictly `JSON.parse` it. -/
def safeJsonParse (text : JStr) : Except JStr Json :=
  let jsonText := jsonCandidate text
  if jsonText = [] then .error extractErrMsg
  else
    match jsonParse jsonText with
    | some j => .ok j
    | none => .error malformedErrMsg

/-- Candidate selection as the specification describes it (spec section 4.2
step 3): with no fenced block, take the inclusive substring from the first
opening brace to the last closing brace.  This definition follows the spec's
words, for comparison with `jsonCandidate`, which follows the code. -/
def braceCandidateSpec (text : JStr) : Option JStr :=
  let t := trimChars text
  match fenceMatch t with
  | some g => if g = [] then some t else some g
  | none =>
    let pre := t.dropWhile (fun c => c ≠ '{')
    let mid := (pre.reverse.dropWhile (fun c => c ≠ '}')).reverse
    if pre ≠ [] ∧ mid ≠ [] then some mid else none

/-- The spread `\x7b ...roadmapData, sources: [] \x7d`: force the `sources`
field of an object to an empty array (non-objects cannot reach this point,
since the structural check requires a truthy `title` property). -/
def setSources (j : Json) : Json :=
  match j with
  | .obj fs => .obj (fs.setKey ("sources".data) (.arr .nil))
  | other => other

/-- Model of `processStreamedResponse` (geminiService.ts lines 132-138):
parse, then throw unless the parsed value is truthy, its `title` is truthy and
its `nodes` is an array; on success return the value with `sources` forced to
an empty array. -/
def processStreamedResponse (fullText : JStr) : Except JStr Json :=
  match safeJsonParse fullText with
  | .error e => .error e
  | .ok j =>
    if !(jsTruthy j) || !(optTruthy (jsGet j ("title".data))) ||
        !(isArrOpt (jsGet j ("nodes".data))) then
      .error structuralErrMsg
    else
      .ok (setSources j)

/-- A sanitized roadmap node as built by `handleGenerate`'s `onComplete`
(App.tsx lines 93-100).  The incoming node is untyped, so the kept fields are
JSON values; `completed` is always the boolean `false` at creation and a real
boolean ever after. -/
structure SNode where
  id : Json
  title : Json
  content : Json
  connections : List Json
  references : List Json
  completed : Bool
deriving DecidableEq

/-- The active roadmap document as built by `handleGenerate`'s `onComplete`
(App.tsx lines 102-109).  `id` and `generatedAt` are always app-generated. -/
structure Roadmap where
  id : JStr
  generatedAt : Nat
  title : Json
  description : Json
  nodes : List SNode
  sources : List Json
deriving DecidableEq

/-- Elements of a JSON field when it is an array, else the empty list (models
`Array.isArray(x) ? x : []`). -/
def arrElemsOr (a : Option Json) : List Json :=
  match a with
  | some (.arr xs) => xs.toList
  | _ => []

/-- Sanitization of one incoming node (App.tsx lines 93-100); `tok` is the
random token drawn for this node's fallback id. -/
def sanitizeNode (tok : JStr) (n : Json) : SNode :=
  { id := jsOr (jsGet n ("id".data)) (.str (("node-".data) ++ tok))
    title := jsOr (jsGet n ("title".data)) (.str ("Untitled Node".data))
    content := jsOr (jsGet n ("content".data)) (.str ("No content provided.".data))
    connections := arrElemsOr (jsGet n ("connections".data))
    references := arrElemsOr (jsGet n ("references".data))
    completed := false }

/-- Map with the element index. -/
def mapIdxFrom (f : Nat → Json → SNode) : Nat → List Json → List SNode
  | _, [] => []
  | i, n :: rest => f i n :: mapIdxFrom f (i + 1) rest

/-- Sanitize the incoming node array; node `i`'s fallback token is `rng i`. -/
def sanitizeNodes (rng : Nat → JStr) (ns : List Json) : List SNode :=
  mapIdxFrom (fun i n => sanitizeNode (rng i) n) 0 ns

/-- The `onComplete` construction of the new roadmap (App.tsx lines 87-111):
run `processStreamedResponse` on the full text, then sanitize into the
canonical document, generating `id` and `generatedAt` from the current time
`now`. -/
def buildRoadmap (now : Nat) (rng : Nat → JStr) (fullText : JStr) : Except JStr Roadmap :=
  match processStreamedResponse fullText with
  | .error e => .error e
  | .ok g =>
    .ok { id := ("roadmap_".data) ++ natStr now
          generatedAt := now
          title := jsOr (jsGet g ("title".data)) (.str ("Untitled Roadmap".data))
          description := jsOr (jsGet g ("description".data)) (.str [])
          nodes := sanitizeNodes rng (arrElemsOr (jsGet g ("nodes".data)))
          sources := arrElemsOr (jsGet g ("sources".data)) }

/-- Serialization of a sanitized node for storage, mirroring `JSON.stringify`
field order of the object literal in App.tsx lines 93-100. -/
def nodeToJson (n : SNode) : Json :=
  .obj (.cons ("id".data) n.id
    (.cons ("title".data) n.title
      (.cons ("content".data) n.content
        (.cons ("connections".data) (.arr (jsonListOf n.connections))
          (.cons ("references".data) (.arr (jsonListOf n.references))
            (.cons ("completed".data) (.bool n.completed) .nil))))))

/-- Serialization of a roadmap, mirroring the object literal of App.tsx lines
102-109. -/
def roadmapToJson (r : Roadmap) : Json :=
  .obj (.cons ("id".data) (.str r.id)
    (.cons ("generatedAt".data) (.num (r.generatedAt : Int))
      (.cons ("title".data) r.title
        (.cons ("description".data) r.description
          (.cons ("nodes".data) (.arr (jsonListOf (r.nodes.map nodeToJson)))
            (.cons ("sources".data) (.arr (jsonListOf r.sources)) .nil))))))

/-- Serialize a roadmap document (`JSON.stringify`). -/
def serializeRoadmap (r : Roadmap) : JStr := printJson (roadmapToJson r)

/-- Serialize the whole history collection for the durable slot. -/
def serializeHistory (rs : List Roadmap) : JStr :=
  printJson (.arr (jsonListOf (rs.map roadmapToJson)))

/-- Application state touched by the embedded handlers: the active roadmap,
the in-memory history, the durable slot contents, the error banner, the
loading flag and the streaming text. -/
structure AppState where
  activeRoadmap : Option Roadmap
  roadmapHistory : List Roadmap
  storage : Option JStr
  error : Option JStr
  isLoading : Bool
  streaming : JStr
deriving DecidableEq

/-- Terminal outcome of one generation attempt: the forwarded chunks together
with either a stream error or completion (the service hands `onComplete` its
own accumulation of the same chunks). -/
inductive GenOutcome where
  | failure : List JStr → JStr → GenOutcome
  | complete : List JStr → GenOutcome

/-- Concatenation of the forwarded chunks. -/
def joinChunks (chunks : List JStr) : JStr := chunks.foldr (· ++ ·) []

/-- Model of `updateHistory` (App.tsx lines 136-139): set the in-memory
history and rewrite the durable slot in full. -/
def updateHistoryState (nh : List Roadmap) (st : AppState) : AppState :=
  { st with roadmapHistory := nh, storage := some (serializeHistory nh) }

/-- Model of `handleGenerate` (App.tsx lines 67-130) for one attempt with a
terminal outcome: reject a blank prompt; otherwise clear the error, the
active roadmap and the streaming buffer, then either surface the stream error
or process the completed text, surfacing its failure or installing the new
roadmap. -/
def handleGenerate (prompt : JStr) (outcome : GenOutcome) (now : Nat)
    (rng : Nat → JStr) (st : AppState) : AppState :=
  if trimChars prompt = [] then { st with error := some ("Prompt cannot be empty.".data) }
  else
    let st1 := { st with isLoading := true, error := none,
                         activeRoadmap := none, streaming := [] }
    match outcome with
    | .failure chunks msg =>
      { st1 with streaming := joinChunks chunks, error := some msg, isLoading := false }
    | .complete chunks =>
      let st2 := { st1 with streaming := joinChunks chunks }
      match buildRoadmap now rng (joinChunks chunks) with
      | .error e => { st2 with error := some e, isLoading := false }
      | .ok r => { st2 with activeRoadmap := some r, isLoading := false }

/-- Model of the history-loading effect (App.tsx lines 54-59): an absent or
empty slot leaves the initial empty collection; otherwise `JSON.parse` is
applied with no guard, so an undeserializable slot throws (`error`) and a
deserializable one is installed without validation. -/
def loadHistory (slot : Option JStr) : Except JStr Json :=
  match slot with
  | none => .ok (.arr .nil)
  | some s =>
    if s = [] then .ok (.arr .nil)
    else
      match jsonParse s with
      | some j => .ok j
      | none => .error malformedErrMsg

/-- The upsert of `handleSaveOrUpdateRoadmap` (App.tsx lines 146-155):
replace the entry at the index found by `findIndex`, else prepend. -/
def upsertList (doc : Roadmap) (hist : List Roadmap) : List Roadmap :=
  match hist.findIdx? (fun r => r.id = doc.id) with
  | some i => hist.set i doc
  | none => doc :: hist

/-- Model of `handleSaveOrUpdateRoadmap` (App.tsx lines 144-157). -/
def handleSaveOrUpdate (st : AppState) : AppState :=
  match st.activeRoadmap with
  | none => st
  | some doc => updateHistoryState (upsertList doc st.roadmapHistory) st

/-- Model of `handleDeleteRoadmap` (App.tsx lines 175-182). -/
def handleDelete (id : JStr) (st : AppState) : AppState :=
  let st1 := updateHistoryState (st.roadmapHistory.filter (fun r => r.id ≠ id)) st
  match st1.activeRoadmap with
  | some r => if r.id = id then { st1 with activeRoadmap := none } else st1
  | none => st1

/-- Strict equality `node.id === nodeId` against the string id handed up by
the display layer. -/
def idEqStr (j : Json) (s : JStr) : Bool :=
  match j with
  | .str t => t = s
  | _ => false

/-- The node map inside `handleToggleNodeCompletion` (App.tsx lines 192-194):
flip `completed` on every node whose id strictly equals `nodeId`. -/
def toggleNodes (nodeId : JStr) (ns : List SNode) : List SNode :=
  ns.map (fun n => if idEqStr n.id nodeId then { n with completed := !n.completed } else n)

/-- Model of `handleToggleNodeCompletion` (App.tsx lines 189-205): update the
active roadmap, and mirror the updated document into the history (rewriting
the durable slot) only when a history entry shares its id. -/
def handleToggleNode (nodeId : JStr) (st : AppState) : AppState :=
  match st.activeRoadmap with
  | none => st
  | some r =>
    let r2 := { r with nodes := toggleNodes nodeId r.nodes }
    let st1 := { st with activeRoadmap := some r2 }
    if st.roadmapHistory.any (fun h => h.id = r2.id) then
      updateHistoryState
        (st.roadmapHistory.map (fun h => if h.id = r2.id then r2 else h)) st1
    else st1

/-- Wrap a serialized document in a tagged fenced code block. -/
def fenceWrap (s : JStr) : JStr :=
  ("```json\n".data) ++ s ++ ("\n```".data)

/-- A small concrete roadmap used to instantiate the state-level theorems. -/
def sampleRoadmap : Roadmap :=
  { id := "roadmap_1".data, generatedAt := 1, title := .str ("T".data),
    description := .str [],
    nodes := [{ id := .str ("a".data), title := .str ("A".data),
                content := .str ("c".data), connections := [], references := [],
                completed := false }],
    sources := [] }

/-- A second concrete roadmap sharing `sampleRoadmap`'s id but with different
content. -/
def sampleRoadmap2 : Roadmap :=
  { sampleRoadmap with title := .str ("T2".data) }

/-- A concrete application state with an active roadmap that is also saved. -/
def sampleState : AppState :=
  { activeRoadmap := some sampleRoadmap, roadmapHistory := [sampleRoadmap],
    storage := none, error := none, isLoading := false, streaming := [] }

/-! ## Well-formedness and size of JSON values (for the round-trip theorem) -/

mutual
/-- Well-formedness: object key lists are duplicate-free at every level.
`JSON.parse` only produces such values (duplicate keys collapse), so every
canonical document satisfies it. -/
def wfJson : Json → Bool
  | .arr xs => wfJsonL xs
  | .obj fs => wfJsonF fs
  | _ => true
/-- Well-formedness of array elements. -/
def wfJsonL : JsonList → Bool
  | .nil => true
  | .cons x xs => wfJson x && wfJsonL xs
/-- Well-formedness of object fields: the head key does not recur. -/
def wfJsonF : JsonFields → Bool
  | .nil => true
  | .cons k v fs => !(fs.hasKey k) && wfJson v && wfJsonF fs
end

mutual
/-- Fuel bound for parsing a printed value. -/
def jsize : Json → Nat
  | .arr xs => 1 + lsize xs
  | .obj fs => 1 + fsize fs
  | _ => 1
/-- Fuel bound for parsing printed array elements. -/
def lsize : JsonList → Nat
  | .nil => 0
  | .cons x xs => 1 + jsize x + lsize xs
/-- Fuel bound for parsing printed object members. -/
def fsize : JsonFields → Nat
  | .nil => 0
  | .cons _ v fs => 1 + jsize v + fsize fs
end

/-- Concatenation of field lists. -/
def appendFields : JsonFields → JsonFields → JsonFields
  | .nil, gs => gs
  | .cons k v fs, gs => .cons k v (appendFields fs gs)

/-- The keys of `fs` are all absent from `acc`. -/
def fieldsDisjoint (acc fs : JsonFields) : Prop :=
  ∀ k : JStr, fs.hasKey k = true → acc.hasKey k = false

/-! ## Helper lemmas -/

theorem getKey_setKey : ∀ (fs : JsonFields) (k : JStr) (v : Json),
    (fs.setKey k v).getKey k = some v
  | .nil, k, v => by simp [JsonFields.setKey, JsonFields.getKey]
  | .cons k2 w rest, k, v => by
    by_cases h : k2 = k
    · simp [JsonFields.setKey, JsonFields.getKey, h]
    · simp [JsonFields.setKey, JsonFields.getKey, h, getKey_setKey rest k v]

theorem processOk_obj (text : JStr) (g : Json)
    (h : processStreamedResponse text = .ok g) :
    ∃ fs, g = .obj (fs.setKey ("sources".data) (.arr .nil)) ∧
      jsTruthy (Json.obj fs) = true ∧
      optTruthy (jsGet (Json.obj fs) ("title".data)) = true ∧
      isArrOpt (jsGet (Json.obj fs) ("nodes".data)) = true := by
  unfold processStreamedResponse at h
  split at h
  · exact absurd h (by simp)
  next j heq =>
    split at h
    · exact absurd h (by simp)
    next hc =>
      have ht : jsTruthy j = true := by
        cases hx : jsTruthy j
        · exact absurd (by simp [hx]) hc
        · rfl
      have htt : optTruthy (jsGet j ("title".data)) = true := by
        cases hx : optTruthy (jsGet j ("title".data))
        · exact absurd (by simp [hx]) hc
        · rfl
      have hn : isArrOpt (jsGet j ("nodes".data)) = true := by
        cases hx : isArrOpt (jsGet j ("nodes".data))
        · exact absurd (by simp [hx]) hc
        · rfl
      cases j with
      | obj fs =>
        refine ⟨fs, ?_, by simp [jsTruthy], by simpa using htt, by simpa using hn⟩
        have h2 := h.symm
        simp only [Except.ok.injEq] at h2
        rw [h2]
        rfl
      | null => simp [jsTruthy] at ht
      | bool b => simp [jsGet, optTruthy] at htt
      | num i => simp [jsGet, optTruthy] at htt
      | str s => simp [jsGet, optTruthy] at htt
      | arr xs => simp [jsGet, optTruthy] at htt

theorem processOk_sources (text : JStr) (g : Json)
    (h : processStreamedResponse text = .ok g) :
    jsGet g ("sources".data) = some (.arr .nil) := by
  obtain ⟨fs, rfl, -, -, -⟩ := processOk_obj text g h
  simp [jsGet, getKey_setKey]

theorem mapIdxFrom_completed (f : Nat → Json → SNode)
    (hf : ∀ i n, (f i n).completed = false) :
    ∀ (k : Nat) (ns : List Json) (n : SNode), n ∈ mapIdxFrom f k ns →
      n.completed = false := by
  intro k ns
  induction ns generalizing k with
  | nil => intro n hn; simp [mapIdxFrom] at hn
  | cons a rest ih =>
    intro n hn
    simp only [mapIdxFrom, List.mem_cons] at hn
    rcases hn with h | h
    · rw [h]; exact hf k a
    · exact ih (k + 1) n h

/-! ## Claims C7 and C10 -/

/-- Claim C7 (confirmed): for every input object accepted by validation, the
canonical roadmap's `id` and `generatedAt` are freshly generated from the
current time, overriding any values present in the input, and every node's
`completed` flag is `false` in the output regardless of its input value: the
conclusion depends only on `now`, not on the input text. -/
theorem claim_C7 (text : JStr) (now : Nat) (rng : Nat → JStr) (R : Roadmap)
    (h : buildRoadmap now rng text = .ok R) :
    R.id = ("roadmap_".data) ++ natStr now ∧ R.generatedAt = now ∧
    ∀ n ∈ R.nodes, n.completed = false := by
  unfold buildRoadmap at h
  cases hps : processStreamedResponse text with
  | error e => rw [hps] at h; exact absurd h (by simp)
  | ok g =>
    rw [hps] at h
    have hR : R = { id := ("roadmap_".data) ++ natStr now
                    generatedAt := now
                    title := jsOr (jsGet g ("title".data)) (.str ("Untitled Roadmap".data))
                    description := jsOr (jsGet g ("description".data)) (.str [])
                    nodes := sanitizeNodes rng (arrElemsOr (jsGet g ("nodes".data)))
                    sources := arrElemsOr (jsGet g ("sources".data)) } := by
      simpa using h.symm
    subst hR
    refine ⟨rfl, rfl, ?_⟩
    intro n hn
    exact mapIdxFrom_completed _ (fun i m => rfl) 0 _ n hn

/-- Witness for C7 at a concrete accepted input: the input carries its own
`id`, `generatedAt` and a completed node, and all are overridden. -/
theorem claim_C7_witness :
    (buildRoadmap 3 (fun _ => "t".data)
      ("\x7b\"id\":\"evil\",\"generatedAt\":9,\"title\":\"T\",\"nodes\":[\x7b\"id\":\"a\",\"completed\":true\x7d]\x7d".data)).isOk = true ∧
    ∀ R, buildRoadmap 3 (fun _ => "t".data)
      ("\x7b\"id\":\"evil\",\"generatedAt\":9,\"title\":\"T\",\"nodes\":[\x7b\"id\":\"a\",\"completed\":true\x7d]\x7d".data) = .ok R →
      R.id = ("roadmap_".data) ++ natStr 3 ∧ R.generatedAt = 3 ∧
      ∀ n ∈ R.nodes, n.completed = false := by
  constructor
  · decide
  · intro R h
    exact claim_C7 _ 3 (fun _ => "t".data) R h

/-- Claim C10 (confirmed): every roadmap produced by the full
extract-and-validate pipeline has an empty `sources` sequence, even when the
input JSON carried a well-formed `sources` array — `processStreamedResponse`
overrides the field with an empty array and the sanitizer reads it back. -/
theorem claim_C10 (text : JStr) (now : Nat) (rng : Nat → JStr) (R : Roadmap)
    (h : buildRoadmap now rng text = .ok R) : R.sources = [] := by
  unfold buildRoadmap at h
  cases hps : processStreamedResponse text with
  | error e => rw [hps] at h; exact absurd h (by simp)
  | ok g =>
    rw [hps] at h
    have hR : R.sources = arrElemsOr (jsGet g ("sources".data)) := by
      have := h.symm
      simp at this
      rw [this]
    rw [hR, processOk_sources text g hps]
    rfl

/-- Witness for C10 at an input whose JSON contains a well-formed `sources`
array: the pipeline accepts it and the output still has no sources. -/
theorem claim_C10_witness :
    buildRoadmap 2 (fun _ => "t".data)
        ("\x7b\"title\":\"T\",\"nodes\":[],\"sources\":[\x7b\"uri\":\"u\",\"title\":\"s\"\x7d]\x7d".data) =
      .ok { id := ("roadmap_2".data), generatedAt := 2, title := .str ("T".data),
            description := .str [], nodes := [], sources := [] } ∧
    ({ id := ("roadmap_2".data), generatedAt := 2, title := .str ("T".data),
       description := .str [], nodes := [], sources := [] } : Roadmap).sources = [] :=
  ⟨by decide,
   claim_C10 ("\x7b\"title\":\"T\",\"nodes\":[],\"sources\":[\x7b\"uri\":\"u\",\"title\":\"s\"\x7d]\x7d".data)
     2 (fun _ => ("t".data))
     { id := ("roadmap_2".data), generatedAt := 2, title := .str ("T".data),
       description := .str [], nodes := [], sources := [] } (by decide)⟩

/-! ## Claim C2: corrupt durable slot -/

/-- Claim C2 (refuted as stated): the claim says every stored value that fails
to deserialize yields the empty collection and never a fatal error.  The
history-loading effect applies `JSON.parse` with no guard, so the concrete
corrupt slot content consisting of a single opening brace makes the load
throw instead of yielding the empty collection. -/
theorem claim_C2_counterexample :
    loadHistory (some ("\x7b".data)) = .error malformedErrMsg := by decide

/-- Claim C2 (amended): an absent slot yields the empty collection, but a
present, nonempty, undeserializable slot makes the history load throw — the
deserialization failure is not caught.  (A deserializable slot is installed
without validation, so foreign parseable content is not normalized either.) -/
theorem claim_C2_amended (s : JStr) (h1 : jsonParse s = none) (h2 : s ≠ []) :
    loadHistory none = .ok (.arr .nil) ∧
    loadHistory (some s) = .error malformedErrMsg := by
  refine ⟨rfl, ?_⟩
  simp [loadHistory, h1, h2]

/-- Witness for the amended C2 at the concrete corrupt slot content. -/
theorem claim_C2_witness :
    loadHistory none = .ok (.arr .nil) ∧
    loadHistory (some ("not json!".data)) = .error malformedErrMsg :=
  claim_C2_amended ("not json!".data) (by decide) (by decide)

/-! ## Claim C3: failures and the previously active roadmap -/

/-- Claim C3 (refuted as stated): the claim says a terminal failure leaves the
previously active roadmap unchanged by the attempt.  In the code the attempt
clears the active roadmap at its start (`setActiveRoadmap(null)`) and the
failure path never restores it: starting from a state whose active roadmap is
`sampleRoadmap`, a transport failure ends with no active roadmap. -/
theorem claim_C3_counterexample :
    sampleState.activeRoadmap = some sampleRoadmap ∧
    (handleGenerate ("go".data) (.failure [] ("boom".data)) 0 (fun _ => [])
        sampleState).activeRoadmap = none := by decide

/-- Claim C3 (amended): for a nonblank prompt, a terminal failure — a stream
error, or a completion whose processing fails — leaves the history store and
the durable slot unchanged and surfaces the failure message verbatim, but the
active roadmap ends cleared (it was nulled at the start of the attempt and is
not restored). -/
theorem claim_C3_amended (prompt msg : JStr) (chunks : List JStr) (now : Nat)
    (rng : Nat → JStr) (st : AppState) (h : trimChars prompt ≠ []) :
    ((handleGenerate prompt (.failure chunks msg) now rng st).roadmapHistory
        = st.roadmapHistory ∧
      (handleGenerate prompt (.failure chunks msg) now rng st).storage = st.storage ∧
      (handleGenerate prompt (.failure chunks msg) now rng st).error = some msg ∧
      (handleGenerate prompt (.failure chunks msg) now rng st).activeRoadmap = none ∧
      (handleGenerate prompt (.failure chunks msg) now rng st).isLoading = false) ∧
    (∀ e, buildRoadmap now rng (joinChunks chunks) = .error e →
      (handleGenerate prompt (.complete chunks) now rng st).roadmapHistory
        = st.roadmapHistory ∧
      (handleGenerate prompt (.complete chunks) now rng st).storage = st.storage ∧
      (handleGenerate prompt (.complete chunks) now rng st).error = some e ∧
      (handleGenerate prompt (.complete chunks) now rng st).activeRoadmap = none ∧
      (handleGenerate prompt (.complete chunks) now rng st).isLoading = false) := by
  constructor
  · simp [handleGenerate, if_neg h]
  · intro e he
    simp [handleGenerate, if_neg h, he]

/-- Witness for the amended C3: a concrete transport failure and a concrete
extraction failure, both from a state holding an active and a saved roadmap. -/
theorem claim_C3_witness :
    ((handleGenerate ("go".data) (.failure [("no json here".data)] ("boom".data)) 0
        (fun _ => []) sampleState).roadmapHistory = sampleState.roadmapHistory ∧
      (handleGenerate ("go".data) (.failure [("no json here".data)] ("boom".data)) 0
        (fun _ => []) sampleState).storage = sampleState.storage ∧
      (handleGenerate ("go".data) (.failure [("no json here".data)] ("boom".data)) 0
        (fun _ => []) sampleState).error = some ("boom".data) ∧
      (handleGenerate ("go".data) (.failure [("no json here".data)] ("boom".data)) 0
        (fun _ => []) sampleState).activeRoadmap = none ∧
      (handleGenerate ("go".data) (.failure [("no json here".data)] ("boom".data)) 0
        (fun _ => []) sampleState).isLoading = false) ∧
    (∀ e, buildRoadmap 0 (fun _ => []) (joinChunks [("no json here".data)]) = .error e →
      (handleGenerate ("go".data) (.complete [("no json here".data)]) 0 (fun _ => [])
        sampleState).roadmapHistory = sampleState.roadmapHistory ∧
      (handleGenerate ("go".data) (.complete [("no json here".data)]) 0 (fun _ => [])
        sampleState).storage = sampleState.storage ∧
      (handleGenerate ("go".data) (.complete [("no json here".data)]) 0 (fun _ => [])
        sampleState).error = some e ∧
      (handleGenerate ("go".data) (.complete [("no json here".data)]) 0 (fun _ => [])
        sampleState).activeRoadmap = none ∧
      (handleGenerate ("go".data) (.complete [("no json here".data)]) 0 (fun _ => [])
        sampleState).isLoading = false) :=
  claim_C3_amended ("go".data) ("boom".data) [("no json here".data)] 0 (fun _ => [])
    sampleState (by decide)

/-! ## Claim C9: generated node ids -/

theorem mapIdxFrom_getElem (f : Nat → Json → SNode) :
    ∀ (k : Nat) (ns : List Json) (i : Nat),
      (mapIdxFrom f k ns)[i]? = (ns[i]?).map (f (k + i)) := by
  intro k ns
  induction ns generalizing k with
  | nil => intro i; simp [mapIdxFrom]
  | cons a rest ih =>
    intro i
    cases i with
    | zero => simp [mapIdxFrom]
    | succ m =>
      simp only [mapIdxFrom, List.getElem?_cons_succ]
      rw [ih (k + 1) m]
      have he : k + 1 + m = k + (m + 1) := by omega
      rw [he]

theorem jsOr_falsy (a : Option Json) (b : Json) (h : optTruthy a = false) :
    jsOr a b = b := by
  cases a with
  | none => rfl
  | some v => simp only [optTruthy] at h; simp [jsOr, h]

theorem sanitizeNode_id_ne (tok : JStr) (n : Json) :
    (sanitizeNode tok n).id ≠ Json.str [] := by
  show jsOr (jsGet n ("id".data)) (.str (("node-".data) ++ tok)) ≠ Json.str []
  cases h : jsGet n ("id".data) with
  | none => simp [jsOr]
  | some v =>
    by_cases hv : jsTruthy v = true
    · simp only [jsOr, hv, if_true]
      intro hveq
      rw [hveq] at hv
      simp [jsTruthy] at hv
    · simp only [jsOr, hv, Bool.false_eq_true, if_false]
      simp

theorem mapIdxFrom_mem (f : Nat → Json → SNode) :
    ∀ (k : Nat) (ns : List Json) (n : SNode), n ∈ mapIdxFrom f k ns →
      ∃ i m, n = f i m := by
  intro k ns
  induction ns generalizing k with
  | nil => intro n hn; simp [mapIdxFrom] at hn
  | cons a rest ih =>
    intro n hn
    simp only [mapIdxFrom, List.mem_cons] at hn
    rcases hn with h | h
    · exact ⟨k, a, h⟩
    · exact ih (k + 1) n h

/-- Claim C9 (refuted as stated): the claim says two distinct nodes whose input
ids are missing never receive colliding generated ids.  The fallback id is
built from a `Math.random()` draw, and real draws are not guaranteed distinct:
with a random source that repeats (modeled by a constant `rng`), two id-less
nodes both receive the id `node-x`. -/
theorem claim_C9_counterexample :
    (buildRoadmap 0 (fun _ => "x".data)
        ("\x7b\"title\":\"T\",\"nodes\":[\x7b\x7d,\x7b\x7d]\x7d".data)).map
      (fun R => R.nodes.map SNode.id) =
    .ok [Json.str ("node-x".data), Json.str ("node-x".data)] := by decide

/-- Claim C9 (amended): sanitization never yields an empty node id (a missing
or falsy id is replaced by a token prefixed with `node-`, and a kept id is
truthy, hence not the empty string), and two distinct nodes whose input ids
are missing or falsy receive distinct generated ids provided the random
tokens drawn for them are distinct — without that proviso collisions are
possible, as `Math.random` does not promise distinct draws. -/
theorem claim_C9_amended (rng : Nat → JStr) (ns : List Json) :
    (∀ n ∈ sanitizeNodes rng ns, n.id ≠ Json.str []) ∧
    (∀ i j ni nj a b,
      ns[i]? = some ni → ns[j]? = some nj →
      optTruthy (jsGet ni ("id".data)) = false →
      optTruthy (jsGet nj ("id".data)) = false →
      rng i ≠ rng j →
      (sanitizeNodes rng ns)[i]? = some a → (sanitizeNodes rng ns)[j]? = some b →
      a.id ≠ b.id) := by
  constructor
  · intro n hn
    obtain ⟨i, m, rfl⟩ := mapIdxFrom_mem _ 0 ns n hn
    exact sanitizeNode_id_ne (rng i) m
  · intro i j ni nj a b hni hnj hfi hfj hr ha hb
    unfold sanitizeNodes at ha hb
    rw [mapIdxFrom_getElem _ 0 ns i, hni] at ha
    rw [mapIdxFrom_getElem _ 0 ns j, hnj] at hb
    simp only [Option.map_some', Option.some.injEq, Nat.zero_add] at ha hb
    have hai : a.id = Json.str (("node-".data) ++ rng i) := by
      rw [← ha]
      show jsOr (jsGet ni ("id".data)) _ = _
      rw [jsOr_falsy _ _ hfi]
    have hbj : b.id = Json.str (("node-".data) ++ rng j) := by
      rw [← hb]
      show jsOr (jsGet nj ("id".data)) _ = _
      rw [jsOr_falsy _ _ hfj]
    rw [hai, hbj]
    intro heq
    apply hr
    have := Json.str.inj heq
    exact List.append_cancel_left this

/-- Witness for the amended C9: two id-less nodes under a random source whose
two draws differ get the ids `node-x0` and `node-x1`, which are distinct. -/
theorem claim_C9_witness :
    (∀ n ∈ sanitizeNodes (fun i => 'x' :: natStr i)
        [Json.obj .nil, Json.obj .nil], n.id ≠ Json.str []) ∧
    ∀ a b,
      (sanitizeNodes (fun i => 'x' :: natStr i) [Json.obj .nil, Json.obj .nil])[0]? = some a →
      (sanitizeNodes (fun i => 'x' :: natStr i) [Json.obj .nil, Json.obj .nil])[1]? = some b →
      a.id ≠ b.id := by
  have h := claim_C9_amended (fun i => 'x' :: natStr i) [Json.obj .nil, Json.obj .nil]
  refine ⟨h.1, ?_⟩
  intro a b ha hb
  exact h.2 0 1 (Json.obj .nil) (Json.obj .nil) a b (by decide) (by decide)
    (by decide) (by decide) (by decide) ha hb

/-! ## Claim C6: the structural check -/

/-- Claim C6 (refuted as stated): the claim says validation fails exactly when
the title is missing or not a non-empty string (or nodes is missing or not an
array).  The code checks JavaScript truthiness, not string-ness: the parsed
object with the numeric title `5` — not a non-empty string — passes the check
and produces a document. -/
theorem claim_C6_counterexample :
    processStreamedResponse ("\x7b\"title\":5,\"nodes\":[]\x7d".data) =
      .ok (.obj (.cons ("title".data) (.num 5) (.cons ("nodes".data) (.arr .nil)
        (.cons ("sources".data) (.arr .nil) .nil)))) := by decide

/-- Claim C6 (amended): for every successfully extracted value, validation
fails exactly when the parsed value is falsy, or its `title` field is falsy
(missing, `null`, the empty string, `0` or `false` — so a truthy non-string
title such as a number is accepted), or its `nodes` field is not an array; in
particular the specific no-title input of the claim fails. -/
theorem claim_C6_amended (text : JStr) (j : Json) (h : safeJsonParse text = .ok j) :
    ((∃ e, processStreamedResponse text = .error e) ↔
      ¬(jsTruthy j = true ∧ optTruthy (jsGet j ("title".data)) = true ∧
        isArrOpt (jsGet j ("nodes".data)) = true)) ∧
    processStreamedResponse ("\x7b\"nodes\":[\x7b\"id\":\"a\",\"title\":\"A\"\x7d]\x7d".data) =
      .error structuralErrMsg := by
  refine ⟨?_, by decide⟩
  have hiff : ((!(jsTruthy j) || !(optTruthy (jsGet j ("title".data))) ||
      !(isArrOpt (jsGet j ("nodes".data)))) = true) ↔
      ¬(jsTruthy j = true ∧ optTruthy (jsGet j ("title".data)) = true ∧
        isArrOpt (jsGet j ("nodes".data)) = true) := by
    cases h1 : jsTruthy j <;> cases h2 : optTruthy (jsGet j ("title".data)) <;>
      cases h3 : isArrOpt (jsGet j ("nodes".data)) <;> simp
  have hP : processStreamedResponse text =
      (if (!(jsTruthy j) || !(optTruthy (jsGet j ("title".data))) ||
          !(isArrOpt (jsGet j ("nodes".data)))) = true then
        Except.error structuralErrMsg
      else
        Except.ok (setSources j)) := by
    unfold processStreamedResponse
    split
    · next e heq =>
      rw [h] at heq
      cases heq
    · next j2 heq =>
      rw [h] at heq
      cases Except.ok.inj heq
      rfl
  rw [hP]
  by_cases hc : (!(jsTruthy j) || !(optTruthy (jsGet j ("title".data))) ||
      !(isArrOpt (jsGet j ("nodes".data)))) = true
  · rw [if_pos hc]
    exact ⟨fun _ => hiff.mp hc, fun _ => ⟨structuralErrMsg, rfl⟩⟩
  · rw [if_neg hc]
    constructor
    · intro ⟨e, he⟩
      exact Except.noConfusion he
    · intro hcon
      exact absurd (hiff.mpr hcon) hc

/-- Witness for the amended C6 at a concrete extracted object with a missing
title: the left side of the equivalence holds, giving the structural failure,
and the truthiness characterization confirms the title is the culprit. -/
theorem claim_C6_witness :
    ((∃ e, processStreamedResponse ("\x7b\"nodes\":[]\x7d".data) = .error e) ↔
      ¬(jsTruthy (.obj (.cons ("nodes".data) (.arr .nil) .nil)) = true ∧
        optTruthy (jsGet (.obj (.cons ("nodes".data) (.arr .nil) .nil)) ("title".data)) = true ∧
        isArrOpt (jsGet (.obj (.cons ("nodes".data) (.arr .nil) .nil)) ("nodes".data)) = true)) ∧
    processStreamedResponse ("\x7b\"nodes\":[\x7b\"id\":\"a\",\"title\":\"A\"\x7d]\x7d".data) =
      .error structuralErrMsg :=
  claim_C6_amended ("\x7b\"nodes\":[]\x7d".data)
    (.obj (.cons ("nodes".data) (.arr .nil) .nil)) (by decide)

/-! ## Claim C1: brace fallback in extraction -/

theorem tryFenceAt_none (cs : JStr) (h : startsTicks cs = false) :
    tryFenceAt cs = none := by
  match cs with
  | [] => rfl
  | [a] => rfl
  | [a, b] => rfl
  | a :: b :: c :: r =>
    simp only [startsTicks] at h
    simp [tryFenceAt, h]

theorem fenceMatch_none (cs : JStr) (h : hasTicks3 cs = false) :
    fenceMatch cs = none := by
  induction cs with
  | nil => rfl
  | cons c rest ih =>
    simp only [hasTicks3, Bool.or_eq_false_iff] at h
    unfold fenceMatch
    rw [tryFenceAt_none _ h.1]
    exact ih h.2

theorem hasTicks3_iff (cs : JStr) :
    hasTicks3 cs = true ↔
      ∃ u v, cs = u ++ tickChar :: tickChar :: tickChar :: v := by
  induction cs with
  | nil =>
    simp only [hasTicks3, Bool.false_eq_true, false_iff]
    rintro ⟨u, v, huv⟩
    exact absurd huv (by simp)
  | cons c rest ih =>
    simp only [hasTicks3, Bool.or_eq_true]
    constructor
    · rintro (h | h)
      · match rest, h with
        | b :: c2 :: r, h =>
          simp only [startsTicks, Bool.and_eq_true, decide_eq_true_eq] at h
          obtain ⟨⟨e1, e2⟩, e3⟩ := h
          exact ⟨[], r, by rw [e1, e2, e3]; rfl⟩
      · obtain ⟨u, v, huv⟩ := ih.mp h
        exact ⟨c :: u, v, by rw [huv]; rfl⟩
    · rintro ⟨u, v, huv⟩
      cases u with
      | nil =>
        left
        simp only [List.nil_append] at huv
        cases huv
        simp [startsTicks]
      | cons c2 u2 =>
        right
        apply ih.mpr
        refine ⟨u2, v, ?_⟩
        simpa using congrArg List.tail huv

theorem hasTicks3_trim (cs : JStr) (h : hasTicks3 cs = false) :
    hasTicks3 (trimChars cs) = false := by
  by_contra hx
  rw [Bool.not_eq_false] at hx
  obtain ⟨u, v, huv⟩ := (hasTicks3_iff _).mp hx
  apply absurd h
  rw [Bool.not_eq_false]
  apply (hasTicks3_iff _).mpr
  have h1 : cs = cs.takeWhile isJsWs ++ cs.dropWhile isJsWs :=
    (List.takeWhile_append_dropWhile isJsWs cs).symm
  have h3 : cs.dropWhile isJsWs =
      ((cs.dropWhile isJsWs).reverse.dropWhile isJsWs).reverse ++
        ((cs.dropWhile isJsWs).reverse.takeWhile isJsWs).reverse := by
    conv_lhs => rw [← List.reverse_reverse (cs.dropWhile isJsWs)]
    conv_lhs =>
      rw [show (cs.dropWhile isJsWs).reverse =
        (cs.dropWhile isJsWs).reverse.takeWhile isJsWs ++
          (cs.dropWhile isJsWs).reverse.dropWhile isJsWs from
        (List.takeWhile_append_dropWhile isJsWs (cs.dropWhile isJsWs).reverse).symm]
    rw [List.reverse_append]
  have htrim : trimChars cs = ((cs.dropWhile isJsWs).reverse.dropWhile isJsWs).reverse := rfl
  rw [htrim] at huv
  refine ⟨cs.takeWhile isJsWs ++ u,
          v ++ ((cs.dropWhile isJsWs).reverse.takeWhile isJsWs).reverse, ?_⟩
  conv_lhs => rw [h1, h3, huv]
  simp

/-- Claim C1 (refuted as stated): the claim says that with no fenced block but
braces present, the extractor takes the first-brace-to-last-brace substring as
the JSON candidate and parses it.  On the concrete input
`Note: \x7b"a":1\x7d ok.` the spec's brace rule would pick `\x7b"a":1\x7d`,
which parses; the code instead keeps the whole trimmed text as the candidate,
and parsing it fails. -/
theorem claim_C1_counterexample :
    braceCandidateSpec ("Note: \x7b\"a\":1\x7d ok.".data) = some ("\x7b\"a\":1\x7d".data) ∧
    jsonParse ("\x7b\"a\":1\x7d".data) = some (.obj (.cons ("a".data) (.num 1) .nil)) ∧
    jsonCandidate ("Note: \x7b\"a\":1\x7d ok.".data) = ("Note: \x7b\"a\":1\x7d ok.".data) ∧
    safeJsonParse ("Note: \x7b\"a\":1\x7d ok.".data) = .error malformedErrMsg := by decide

/-- Claim C1 (amended): for every input with no triple backtick (hence no
fenced block) and a nonempty trim, the extractor takes the whole trimmed text
as the JSON candidate — there is no first-brace-to-last-brace narrowing — and
then strictly parses that whole text. -/
theorem claim_C1_amended (text : JStr) (h : hasTicks3 text = false)
    (h2 : trimChars text ≠ []) :
    jsonCandidate text = trimChars text ∧
    (∀ j, jsonParse (trimChars text) = some j → safeJsonParse text = .ok j) ∧
    (jsonParse (trimChars text) = none → safeJsonParse text = .error malformedErrMsg) := by
  have hf : fenceMatch (trimChars text) = none := fenceMatch_none _ (hasTicks3_trim text h)
  have hc : jsonCandidate text = trimChars text := by
    simp only [jsonCandidate]
    rw [hf]
  refine ⟨hc, ?_, ?_⟩
  · intro j hj
    simp only [safeJsonParse]
    rw [hc, if_neg h2, hj]
  · intro hj
    simp only [safeJsonParse]
    rw [hc, if_neg h2, hj]

/-- Witness for the amended C1 at the concrete prose-wrapped input: the
candidate is the whole trimmed text and parsing it fails. -/
theorem claim_C1_witness :
    jsonCandidate ("Note: \x7b\"a\":1\x7d ok.".data) =
      trimChars ("Note: \x7b\"a\":1\x7d ok.".data) ∧
    safeJsonParse ("Note: \x7b\"a\":1\x7d ok.".data) = .error malformedErrMsg := by
  have h := claim_C1_amended ("Note: \x7b\"a\":1\x7d ok.".data) (by decide) (by decide)
  exact ⟨h.1, h.2.2 (by decide)⟩

/-! ## Claim C4: upsert -/

theorem nodup_map_idx_eq {α β : Type} [DecidableEq β] (f : α → β) {l : List α}
    (hnd : (l.map f).Nodup) {i j : Nat} (hi : i < l.length) (hj : j < l.length)
    (hf : f (l[i]) = f (l[j])) : i = j := by
  have hi2 : i < (l.map f).length := by simpa using hi
  have hj2 : j < (l.map f).length := by simpa using hj
  have h1 : (l.map f)[i] = (l.map f)[j] := by
    simpa [List.getElem_map] using hf
  exact (hnd.getElem_inj_iff).mp h1

theorem findIdx?_of_nodup {l : List Roadmap} {x : JStr}
    (hnd : (l.map Roadmap.id).Nodup) {i : Nat} (hi : i < l.length)
    (hx : (l[i]).id = x) :
    l.findIdx? (fun r => r.id = x) = some i := by
  rw [List.findIdx?_eq_some_iff_getElem]
  refine ⟨hi, by simp [hx], ?_⟩
  intro j hji
  rw [Bool.not_eq_true, decide_eq_false_iff_not]
  intro hc
  have hj : j < l.length := Nat.lt_trans hji hi
  have := nodup_map_idx_eq Roadmap.id hnd hj hi (hc.trans hx.symm)
  omega

theorem countP_set_stable {α : Type} {p : α → Bool} :
    ∀ (l : List α) (i : Nat) (a : α) (hi : i < l.length), p (l[i]) = true →
      p a = true → (l.set i a).countP p = l.countP p
  | [], i, a, hi, _, _ => by simp at hi
  | b :: t, 0, a, hi, hp, hpa => by
    simp only [List.set_cons_zero]
    rw [List.countP_cons_of_pos _ _ hpa, List.countP_cons_of_pos]
    simpa using hp
  | b :: t, i + 1, a, hi, hp, hpa => by
    simp only [List.set_cons_succ]
    rw [List.countP_cons, List.countP_cons,
      countP_set_stable t i a (by simpa using hi) (by simpa using hp) hpa]

theorem countP_one_of_nodup {α β : Type} [DecidableEq β] (f : α → β) :
    ∀ (l : List α) (x : β), (l.map f).Nodup →
      ∀ (i : Nat) (hi : i < l.length), f (l[i]) = x →
      l.countP (fun r => f r = x) = 1
  | [], x, _, i, hi, _ => by simp at hi
  | b :: t, x, hnd, 0, hi, hx => by
    simp only [List.getElem_cons_zero] at hx
    simp only [List.map_cons, List.nodup_cons] at hnd
    rw [List.countP_cons_of_pos _ _ (by simp [hx])]
    have hz : t.countP (fun r => decide (f r = x)) = 0 := by
      rw [List.countP_eq_zero]
      intro a ha
      simp only [decide_eq_true_eq]
      intro hax
      have hmem : x ∈ t.map f := hax ▸ List.mem_map_of_mem f ha
      rw [← hx] at hmem
      exact hnd.1 hmem
    rw [hz]
  | b :: t, x, hnd, i + 1, hi, hx => by
    simp only [List.getElem_cons_succ] at hx
    simp only [List.map_cons, List.nodup_cons] at hnd
    have hit : i < t.length := by simpa using hi
    have hb : ¬(f b = x) := by
      intro hbx
      apply hnd.1
      rw [hbx, ← hx]
      exact List.mem_map_of_mem f (t.getElem_mem hit)
    rw [List.countP_cons_of_neg _ _ (by simpa using hb)]
    exact countP_one_of_nodup f t x hnd.2 i hit hx

theorem set_self_getElem {α : Type} :
    ∀ (l : List α) (i : Nat) (hi : i < l.length), l.set i (l[i]) = l
  | [], i, hi => by simp at hi
  | b :: t, 0, _ => by simp
  | b :: t, i + 1, hi => by
    simp only [List.getElem_cons_succ, List.set_cons_succ, List.cons.injEq, true_and]
    exact set_self_getElem t i (by simpa using hi)

/-- Claim C4 (confirmed): over history states satisfying the unique-id
invariant, `upsert(doc)` replaces the entry carrying `doc.id` in place at its
existing position when one exists and prepends `doc` as newest otherwise; and
after two consecutive upserts with the same id exactly one entry for that id
remains, at the same position as after the first call, holding the second
call's content. -/
theorem claim_C4 (hist : List Roadmap) (doc doc2 : Roadmap)
    (hid : doc2.id = doc.id) (hnd : (hist.map Roadmap.id).Nodup) :
    (∀ (i : Nat) (hi : i < hist.length), (hist.get ⟨i, hi⟩).id = doc.id →
      upsertList doc hist = hist.set i doc) ∧
    ((∀ r ∈ hist, r.id ≠ doc.id) → upsertList doc hist = doc :: hist) ∧
    (upsertList doc2 (upsertList doc hist)).countP (fun r => r.id = doc.id) = 1 ∧
    (upsertList doc2 (upsertList doc hist)).findIdx? (fun r => r.id = doc.id) =
      (upsertList doc hist).findIdx? (fun r => r.id = doc.id) ∧
    (∀ i, (upsertList doc hist).findIdx? (fun r => r.id = doc.id) = some i →
      (upsertList doc2 (upsertList doc hist))[i]? = some doc2) := by
  have hpart1 : ∀ (i : Nat) (hi : i < hist.length), (hist.get ⟨i, hi⟩).id = doc.id →
      upsertList doc hist = hist.set i doc := by
    intro i hi hx
    unfold upsertList
    rw [findIdx?_of_nodup hnd hi (by simpa using hx)]
  have hpart2 : (∀ r ∈ hist, r.id ≠ doc.id) → upsertList doc hist = doc :: hist := by
    intro hall
    unfold upsertList
    rw [List.findIdx?_eq_none_iff.mpr (fun x hx => by simpa using hall x hx)]
  refine ⟨hpart1, hpart2, ?_⟩
  cases hf : hist.findIdx? (fun r => r.id = doc.id) with
  | none =>
    have hall : ∀ r ∈ hist, ¬(r.id = doc.id) := by
      have := List.findIdx?_eq_none_iff.mp hf
      intro r hr
      simpa using this r hr
    have h1eq : upsertList doc hist = doc :: hist := by
      unfold upsertList
      rw [hf]
    have hz : hist.countP (fun r => decide (r.id = doc.id)) = 0 := by
      rw [List.countP_eq_zero]
      intro a ha
      simpa using hall a ha
    have idx1 : (doc :: hist).findIdx? (fun r => r.id = doc.id) = some 0 := by
      rw [List.findIdx?_cons]
      simp
    have h2eq : upsertList doc2 (doc :: hist) = doc2 :: hist := by
      unfold upsertList
      simp only [hid]
      rw [idx1]
      simp
    rw [h1eq, h2eq]
    refine ⟨?_, ?_, ?_⟩
    · rw [List.countP_cons_of_pos _ _ (by simp [hid])]
      rw [hz]
    · rw [idx1, List.findIdx?_cons]
      simp [hid]
    · intro i hi
      rw [idx1] at hi
      cases hi
      simp
  | some i0 =>
    obtain ⟨hi0, hp0, hmin⟩ := List.findIdx?_eq_some_iff_getElem.mp hf
    have hp0x : (hist.get ⟨i0, hi0⟩).id = doc.id := by simpa using hp0
    have h1eq : upsertList doc hist = hist.set i0 doc := by
      unfold upsertList
      rw [hf]
    have him : i0 < (hist.map Roadmap.id).length := by simpa using hi0
    have hmapget : (hist.map Roadmap.id)[i0] = (hist.get ⟨i0, hi0⟩).id := by
      simp [List.getElem_map]
    have hmapeq : (hist.set i0 doc).map Roadmap.id = hist.map Roadmap.id := by
      rw [List.map_set, ← hp0x, ← hmapget]
      exact set_self_getElem (hist.map Roadmap.id) i0 (by simpa using hi0)
    have hset2 : upsertList doc2 (upsertList doc hist) = hist.set i0 doc2 := by
      rw [h1eq]
      have hnd1 : ((hist.set i0 doc).map Roadmap.id).Nodup := by
        rw [hmapeq]
        exact hnd
      have hlen : i0 < (hist.set i0 doc).length := by simpa using hi0
      have idx1 : (hist.set i0 doc).findIdx? (fun r => r.id = doc.id) = some i0 := by
        apply findIdx?_of_nodup hnd1 hlen
        simp
      unfold upsertList
      simp only [hid]
      rw [idx1]
      show (hist.set i0 doc).set i0 doc2 = hist.set i0 doc2
      rw [List.set_set]
    have hmapeq2 : (hist.set i0 doc2).map Roadmap.id = hist.map Roadmap.id := by
      rw [List.map_set, hid, ← hp0x, ← hmapget]
      exact set_self_getElem (hist.map Roadmap.id) i0 (by simpa using hi0)
    have hnd2 : ((hist.set i0 doc2).map Roadmap.id).Nodup := by
      rw [hmapeq2]
      exact hnd
    have hlen2 : i0 < (hist.set i0 doc2).length := by simpa using hi0
    have idx2 : (hist.set i0 doc2).findIdx? (fun r => r.id = doc.id) = some i0 := by
      apply findIdx?_of_nodup hnd2 hlen2
      simp [hid]
    have idx1' : (upsertList doc hist).findIdx? (fun r => r.id = doc.id) = some i0 := by
      rw [h1eq]
      have hnd1 : ((hist.set i0 doc).map Roadmap.id).Nodup := by
        rw [hmapeq]
        exact hnd
      apply findIdx?_of_nodup hnd1 (by simpa using hi0)
      simp
    refine ⟨?_, ?_, ?_⟩
    · rw [hset2]
      rw [countP_set_stable hist i0 doc2 hi0 (by simpa using hp0) (by simp [hid])]
      exact countP_one_of_nodup Roadmap.id hist doc.id hnd i0 hi0 hp0x
    · rw [hset2, idx2, idx1']
    · intro i hi
      rw [idx1'] at hi
      cases hi
      rw [hset2]
      exact List.getElem?_set_self (by simpa using hi0)

/-- Witness for C4 at a concrete singleton history: the second upsert of a
document with the stored id replaces in place and exactly one entry remains. -/
theorem claim_C4_witness :
    upsertList sampleRoadmap2 [sampleRoadmap] = [sampleRoadmap2] ∧
    (upsertList sampleRoadmap2 (upsertList sampleRoadmap2 [sampleRoadmap])).countP
      (fun r => r.id = sampleRoadmap2.id) = 1 := by
  have h := claim_C4 [sampleRoadmap] sampleRoadmap2 sampleRoadmap2 rfl (by decide)
  exact ⟨h.1 0 (by decide) (by decide), h.2.2.1⟩

/-! ## Claim C5: toggling a node -/

theorem idEqStr_eq (j : Json) (s : JStr) : idEqStr j s = decide (j = Json.str s) := by
  cases j <;> simp [idEqStr]

theorem map_replace_eq_set {α β : Type} [DecidableEq β] (key : α → β) (g : α → α)
    (x : β) :
    ∀ (l : List α) (i : Nat) (hi : i < l.length), (l.map key).Nodup →
      key (l.get ⟨i, hi⟩) = x →
      l.map (fun a => if key a = x then g a else a) = l.set i (g (l.get ⟨i, hi⟩))
  | [], i, hi, _, _ => by simp at hi
  | b :: t, 0, hi, hnd, hx => by
    simp only [List.get_eq_getElem, List.getElem_cons_zero] at hx ⊢
    simp only [List.map_cons, List.set_cons_zero]
    rw [if_pos hx]
    congr 1
    simp only [List.map_cons, List.nodup_cons] at hnd
    calc t.map (fun a => if key a = x then g a else a)
        = t.map id := by
          apply List.map_congr_left
          intro a ha
          rw [if_neg]
          · rfl
          · intro hax
            exact hnd.1 (by rw [hx, ← hax]; exact List.mem_map_of_mem key ha)
      _ = t := List.map_id t
  | b :: t, i + 1, hi, hnd, hx => by
    simp only [List.get_eq_getElem, List.getElem_cons_succ] at hx ⊢
    simp only [List.map_cons, List.set_cons_succ]
    simp only [List.map_cons, List.nodup_cons] at hnd
    have hit : i < t.length := by simpa using hi
    rw [if_neg]
    · have := map_replace_eq_set key g x t i hit hnd.2
        (by simpa only [List.get_eq_getElem] using hx)
      simp only [List.get_eq_getElem] at this
      rw [this]
    · intro hbx
      apply hnd.1
      rw [hbx, ← hx]
      exact List.mem_map_of_mem key (t.getElem_mem hit)

theorem toggleNodes_eq (nodeId : JStr) (ns : List SNode) :
    toggleNodes nodeId ns = ns.map
      (fun n => if n.id = Json.str nodeId then { n with completed := !n.completed }
                else n) := by
  unfold toggleNodes
  apply List.map_congr_left
  intro n _
  rw [idEqStr_eq]
  by_cases h : n.id = Json.str nodeId
  · simp [h]
  · simp [h]

/-- Claim C5 (confirmed): under the unique-node-id and unique-history-id
invariants, toggling returns a new roadmap in which exactly the node carrying
the given id has its `completed` flag flipped (replace-at-index) and every
other field and node is unchanged; when a history entry shares the roadmap's
id the stored entry is replaced by the same updated roadmap (and the durable
slot rewritten), and when none does the history and the slot are untouched. -/
theorem claim_C5 (st : AppState) (r : Roadmap) (nodeId : JStr)
    (hact : st.activeRoadmap = some r)
    (hnodes : (r.nodes.map SNode.id).Nodup)
    (hhist : (st.roadmapHistory.map Roadmap.id).Nodup) :
    ∃ r2, r2 = { r with nodes := toggleNodes nodeId r.nodes } ∧
      (handleToggleNode nodeId st).activeRoadmap = some r2 ∧
      r2.id = r.id ∧ r2.generatedAt = r.generatedAt ∧ r2.title = r.title ∧
      r2.description = r.description ∧ r2.sources = r.sources ∧
      r2.nodes.length = r.nodes.length ∧
      (∀ (i : Nat) (hi : i < r.nodes.length),
        idEqStr (r.nodes.get ⟨i, hi⟩).id nodeId = true →
        r2.nodes = r.nodes.set i
          { r.nodes.get ⟨i, hi⟩ with
              completed := !(r.nodes.get ⟨i, hi⟩).completed }) ∧
      ((∀ n ∈ r.nodes, idEqStr n.id nodeId = false) → r2.nodes = r.nodes) ∧
      (∀ (k : Nat) (hk : k < st.roadmapHistory.length),
        (st.roadmapHistory.get ⟨k, hk⟩).id = r.id →
        (handleToggleNode nodeId st).roadmapHistory = st.roadmapHistory.set k r2 ∧
        (handleToggleNode nodeId st).storage =
          some (serializeHistory (st.roadmapHistory.set k r2))) ∧
      ((∀ h ∈ st.roadmapHistory, h.id ≠ r.id) →
        (handleToggleNode nodeId st).roadmapHistory = st.roadmapHistory ∧
        (handleToggleNode nodeId st).storage = st.storage) := by
  refine ⟨{ r with nodes := toggleNodes nodeId r.nodes }, rfl, ?_⟩
  set r2 : Roadmap := { r with nodes := toggleNodes nodeId r.nodes } with hr2
  have hH : handleToggleNode nodeId st =
      (if st.roadmapHistory.any (fun h => h.id = r2.id) then
        updateHistoryState
          (st.roadmapHistory.map (fun h => if h.id = r2.id then r2 else h))
          { st with activeRoadmap := some r2 }
      else { st with activeRoadmap := some r2 }) := by
    unfold handleToggleNode
    rw [hact]
  have hid2 : r2.id = r.id := rfl
  refine ⟨?_, rfl, rfl, rfl, rfl, rfl, ?_, ?_, ?_, ?_, ?_⟩
  · rw [hH]
    split
    · simp [updateHistoryState]
    · rfl
  · show (toggleNodes nodeId r.nodes).length = r.nodes.length
    rw [toggleNodes_eq]
    simp
  · intro i hi hidx
    show toggleNodes nodeId r.nodes = _
    rw [toggleNodes_eq]
    rw [idEqStr_eq, decide_eq_true_eq] at hidx
    exact map_replace_eq_set SNode.id
      (fun n => { n with completed := !n.completed }) (Json.str nodeId)
      r.nodes i hi hnodes hidx
  · intro hall
    show toggleNodes nodeId r.nodes = r.nodes
    rw [toggleNodes_eq]
    have hcongr : r.nodes.map
        (fun n => if n.id = Json.str nodeId then { n with completed := !n.completed }
                  else n) = r.nodes.map id := by
      apply List.map_congr_left
      intro n hn
      have := hall n hn
      rw [idEqStr_eq, decide_eq_false_iff_not] at this
      rw [if_neg this]
      rfl
    rw [hcongr, List.map_id]
  · intro k hk hkid
    have hany : st.roadmapHistory.any (fun h => h.id = r2.id) = true := by
      rw [List.any_eq_true]
      refine ⟨st.roadmapHistory.get ⟨k, hk⟩, List.get_mem _ _ hk, ?_⟩
      simp only [decide_eq_true_eq, hid2]
      exact hkid
    rw [hH, if_pos hany]
    have hmap : st.roadmapHistory.map (fun h => if h.id = r2.id then r2 else h) =
        st.roadmapHistory.set k r2 := by
      have := map_replace_eq_set Roadmap.id (fun _ => r2) r2.id
        st.roadmapHistory k hk hhist (by rw [hid2]; exact hkid)
      simpa using this
    rw [hmap]
    exact ⟨rfl, rfl⟩
  · intro hall
    have hany : st.roadmapHistory.any (fun h => h.id = r2.id) = false := by
      rw [List.any_eq_false]
      intro h hmem
      simp only [decide_eq_true_eq, hid2]
      exact hall h hmem
    rw [hH, hany]
    exact ⟨rfl, rfl⟩

/-- Witness for C5: toggling node `a` on the sample state (whose roadmap is
also saved) updates both the active copy and the stored copy, and the flag
really flips to `true`. -/
theorem claim_C5_witness :
    (handleToggleNode ("a".data) sampleState).activeRoadmap =
      some { sampleRoadmap with nodes := toggleNodes ("a".data) sampleRoadmap.nodes } ∧
    (handleToggleNode ("a".data) sampleState).roadmapHistory =
      [{ sampleRoadmap with nodes := toggleNodes ("a".data) sampleRoadmap.nodes }] ∧
    (toggleNodes ("a".data) sampleRoadmap.nodes).map SNode.completed = [true] := by
  obtain ⟨r2, hr2, hactive, _, _, _, _, _, _, _, _, hk, _⟩ :=
    claim_C5 sampleState sampleRoadmap ("a".data) rfl (by decide) (by decide)
  refine ⟨?_, ?_, by decide⟩
  · rw [hactive, hr2]
  · have h0 := hk 0 (by decide) (by decide)
    rw [h0.1, hr2]
    rfl

/-! ## Claim C8: serialize/extract/validate round trip.  First, decimal
digits. -/

theorem digitChar_toNat (d : Nat) (h : d < 10) : (digitChar d).toNat = 48 + d := by
  interval_cases d <;> decide

theorem digitChar_isDigit (d : Nat) (h : d < 10) : (digitChar d).isDigit = true := by
  interval_cases d <;> decide

theorem natDigitsAux_irrel (n : Nat) : ∀ (f1 f2 : Nat), n < f1 → n < f2 →
    natDigitsAux f1 n = natDigitsAux f2 n := by
  induction n using Nat.strong_induction_on with
  | _ n ih =>
    intro f1 f2 h1 h2
    match f1, f2 with
    | g1 + 1, g2 + 1 =>
      simp only [natDigitsAux]
      by_cases h : n < 10
      · simp [h]
      · simp only [h, if_false]
        have hdiv : n / 10 < n := Nat.div_lt_self (by omega) (by omega)
        rw [ih (n / 10) hdiv g1 g2 (by omega) (by omega)]

theorem natStr_unfold (n : Nat) :
    natStr n = if n < 10 then [digitChar n]
               else natStr (n / 10) ++ [digitChar (n % 10)] := by
  show natDigitsAux (n + 1) n = _
  simp only [natDigitsAux]
  by_cases h : n < 10
  · simp [h]
  · simp only [h, if_false]
    have hdiv : n / 10 < n := Nat.div_lt_self (by omega) (by omega)
    rw [natDigitsAux_irrel (n / 10) n (n / 10 + 1) (by omega) (by omega)]
    rfl

theorem natStr_digits (n : Nat) : ∀ c ∈ natStr n, c.isDigit = true := by
  induction n using Nat.strong_induction_on with
  | _ n ih =>
    intro c hc
    rw [natStr_unfold] at hc
    by_cases h : n < 10
    · rw [if_pos h] at hc
      simp only [List.mem_singleton] at hc
      rw [hc]
      exact digitChar_isDigit n h
    · rw [if_neg h] at hc
      have hdiv : n / 10 < n := Nat.div_lt_self (by omega) (by omega)
      rcases List.mem_append.mp hc with h2 | h2
      · exact ih (n / 10) hdiv c h2
      · simp only [List.mem_singleton] at h2
        rw [h2]
        exact digitChar_isDigit _ (Nat.mod_lt _ (by omega))

theorem natStr_ne_nil (n : Nat) : natStr n ≠ [] := by
  rw [natStr_unfold]
  by_cases h : n < 10
  · simp [h]
  · simp [h]

theorem natStr_foldl (n : Nat) :
    (natStr n).foldl (fun a c => a * 10 + (c.toNat - 48)) 0 = n := by
  induction n using Nat.strong_induction_on with
  | _ n ih =>
    rw [natStr_unfold]
    by_cases h : n < 10
    · rw [if_pos h]
      simp only [List.foldl_cons, List.foldl_nil]
      rw [digitChar_toNat n h]
      omega
    · rw [if_neg h]
      have hdiv : n / 10 < n := Nat.div_lt_self (by omega) (by omega)
      rw [List.foldl_append]
      rw [ih (n / 10) hdiv]
      simp only [List.foldl_cons, List.foldl_nil]
      rw [digitChar_toNat _ (Nat.mod_lt _ (by omega))]
      omega

theorem takeWhile_all_append {p : Char → Bool} :
    ∀ (l1 l2 : JStr), (∀ c ∈ l1, p c = true) →
      (∀ c, l2.head? = some c → p c = false) →
      (l1 ++ l2).takeWhile p = l1 ∧ (l1 ++ l2).dropWhile p = l2
  | [], l2, _, hp2 => by
    cases l2 with
    | nil => simp
    | cons c l2' =>
      have := hp2 c rfl
      simp [List.takeWhile_cons, List.dropWhile_cons, this]
  | c :: l1', l2, hp1, hp2 => by
    have hc : p c = true := hp1 c (List.mem_cons_self c l1')
    have ih := takeWhile_all_append l1' l2 (fun d hd => hp1 d (List.mem_cons_of_mem c hd)) hp2
    simp only [List.cons_append, List.takeWhile_cons, List.dropWhile_cons, hc]
    simp [ih.1, ih.2]

theorem parseNatDigits_print (n : Nat) (rest : JStr)
    (hrest : ∀ c, rest.head? = some c → c.isDigit = false) :
    parseNatDigits (natStr n ++ rest) = some (n, rest) := by
  obtain ⟨ht, hd⟩ := takeWhile_all_append (natStr n) rest (natStr_digits n) hrest
  unfold parseNatDigits
  simp only [ht, hd, natStr_ne_nil n, if_false, natStr_foldl n]

theorem hexVal_hexDigit (x : Nat) (h : x < 16) : hexVal (hexDigit x) = some x := by
  interval_cases x <;> decide

theorem char_eq_of_toNat (c : Char) (n : Nat) (h : c.toNat = n) : c = Char.ofNat n := by
  rw [← h, Char.ofNat_toNat]

theorem parseStrBody_print : ∀ (s acc rest : JStr),
    parseStrBody acc (escList s ++ '"' :: rest) = some (acc.reverse ++ s, rest)
  | [], acc, rest => by
    show parseStrBody acc ([] ++ '"' :: rest) = _
    rw [List.nil_append]
    unfold parseStrBody
    simp
  | c :: s', acc, rest => by
    show parseStrBody acc ((escChar c ++ escList s') ++ '"' :: rest) = _
    rw [List.append_assoc]
    by_cases h1 : c = '"'
    · subst h1
      rw [show escChar '"' = ['\\', '"'] from rfl]
      show parseStrBody acc ('\\' :: '"' :: (escList s' ++ '"' :: rest)) = _
      unfold parseStrBody
      simp [parseStrBody_print s' ('"' :: acc) rest]
    · by_cases h2 : c = '\\'
      · subst h2
        rw [show escChar '\\' = ['\\', '\\'] from rfl]
        show parseStrBody acc ('\\' :: '\\' :: (escList s' ++ '"' :: rest)) = _
        unfold parseStrBody
        simp [parseStrBody_print s' ('\\' :: acc) rest]
      · by_cases h32 : c.toNat < 32
        · by_cases hm10 : c.toNat = 10
          · rw [char_eq_of_toNat c 10 hm10, show Char.ofNat 10 = '\n' from rfl]
            rw [show escChar '\n' = ['\\', 'n'] from rfl]
            show parseStrBody acc ('\\' :: 'n' :: (escList s' ++ '"' :: rest)) = _
            unfold parseStrBody
            simp [parseStrBody_print s' ('\n' :: acc) rest]
          · by_cases hm13 : c.toNat = 13
            · rw [char_eq_of_toNat c 13 hm13, show Char.ofNat 13 = '\r' from rfl]
              rw [show escChar '\r' = ['\\', 'r'] from rfl]
              show parseStrBody acc ('\\' :: 'r' :: (escList s' ++ '"' :: rest)) = _
              unfold parseStrBody
              simp [parseStrBody_print s' ('\r' :: acc) rest]
            · by_cases hm9 : c.toNat = 9
              · rw [char_eq_of_toNat c 9 hm9, show Char.ofNat 9 = '\t' from rfl]
                rw [show escChar '\t' = ['\\', 't'] from rfl]
                show parseStrBody acc ('\\' :: 't' :: (escList s' ++ '"' :: rest)) = _
                unfold parseStrBody
                simp [parseStrBody_print s' ('\t' :: acc) rest]
              · by_cases hm8 : c.toNat = 8
                · rw [char_eq_of_toNat c 8 hm8]
                  rw [show escChar (Char.ofNat 8) = ['\\', 'b'] from rfl]
                  show parseStrBody acc ('\\' :: 'b' :: (escList s' ++ '"' :: rest)) = _
                  unfold parseStrBody
                  simp [parseStrBody_print s' (Char.ofNat 8 :: acc) rest]
                · by_cases hm12 : c.toNat = 12
                  · rw [char_eq_of_toNat c 12 hm12]
                    rw [show escChar (Char.ofNat 12) = ['\\', 'f'] from rfl]
                    show parseStrBody acc ('\\' :: 'f' :: (escList s' ++ '"' :: rest)) = _
                    unfold parseStrBody
                    simp [parseStrBody_print s' (Char.ofNat 12 :: acc) rest]
                  · have hne1 : c ≠ '\n' := fun he => hm10 (by rw [he]; rfl)
                    have hne2 : c ≠ '\r' := fun he => hm13 (by rw [he]; rfl)
                    have hne3 : c ≠ '\t' := fun he => hm9 (by rw [he]; rfl)
                    have hesc : escChar c =
                        ['\\', 'u', '0', '0', hexDigit (c.toNat / 16),
                         hexDigit (c.toNat % 16)] := by
                      simp only [escChar, if_neg h1, if_neg h2, if_neg hne1,
                        if_neg hne2, if_neg hne3, if_neg hm8, if_neg hm12,
                        if_pos h32]
                    rw [hesc]
                    show parseStrBody acc ('\\' :: 'u' :: '0' :: '0' ::
                      hexDigit (c.toNat / 16) :: hexDigit (c.toNat % 16) ::
                      (escList s' ++ '"' :: rest)) = _
                    unfold parseStrBody
                    have hval : ((0 * 16 + 0) * 16 + c.toNat / 16) * 16 +
                        c.toNat % 16 = c.toNat := by omega
                    simp only [show hexVal '0' = some 0 from rfl,
                      hexVal_hexDigit (c.toNat / 16) (by omega),
                      hexVal_hexDigit (c.toNat % 16) (by omega)]
                    rw [show ((0 * 16 + 0) * 16 + c.toNat / 16) * 16 +
                      c.toNat % 16 = c.toNat from by omega, Char.ofNat_toNat]
                    simp [parseStrBody_print s' (c :: acc) rest]
        · have hesc : escChar c = [c] := by
            have hne1 : c ≠ '\n' := fun he => h32 (by rw [he]; decide)
            have hne2 : c ≠ '\r' := fun he => h32 (by rw [he]; decide)
            have hne3 : c ≠ '\t' := fun he => h32 (by rw [he]; decide)
            have hne8 : ¬(c.toNat = 8) := by omega
            have hne12 : ¬(c.toNat = 12) := by omega
            simp only [escChar, if_neg h1, if_neg h2, if_neg hne1, if_neg hne2,
              if_neg hne3, if_neg hne8, if_neg hne12, if_neg h32]
          rw [hesc]
          show parseStrBody acc (c :: (escList s' ++ '"' :: rest)) = _
          unfold parseStrBody
          rw [if_neg h1, if_neg h2, if_neg h32]
          simp [parseStrBody_print s' (c :: acc) rest]

theorem digit_dispatch (c : Char) (h : c.isDigit = true) :
    c ≠ '{' ∧ c ≠ '[' ∧ c ≠ '"' ∧ c ≠ 't' ∧ c ≠ 'f' ∧ c ≠ 'n' ∧ c ≠ '-' ∧
    isJsonWs c = false ∧ c ≠ ']' ∧ c ≠ '}' := by
  refine ⟨?_, ?_, ?_, ?_, ?_, ?_, ?_, ?_, ?_, ?_⟩ <;>
    first
      | (intro he; rw [he] at h; exact absurd h (by decide))
      | (cases hw : isJsonWs c
         · rfl
         · exfalso
           have hor : c = ' ' ∨ c = '\t' ∨ c = '\n' ∨ c = '\r' := by
             simpa [isJsonWs, or_assoc] using hw
           rcases hor with h1 | h1 | h1 | h1 <;> (subst h1; revert h; decide))

theorem printJson_head (j : Json) :
    ∃ c t, printJson j = c :: t ∧ isJsonWs c = false ∧ c ≠ ']' ∧ c ≠ '}' := by
  cases j with
  | num i =>
    show ∃ c t, intStr i = c :: t ∧ _
    unfold intStr
    by_cases h : i < 0
    · rw [if_pos h]
      exact ⟨'-', _, rfl, by decide⟩
    · rw [if_neg h]
      cases hns : natStr i.natAbs with
      | nil => exact absurd hns (natStr_ne_nil _)
      | cons d ds =>
        have hd : d.isDigit = true := by
          apply natStr_digits i.natAbs
          rw [hns]
          exact List.mem_cons_self d ds
        obtain ⟨-, -, -, -, -, -, -, hw, hr, hb⟩ := digit_dispatch d hd
        exact ⟨d, ds, rfl, hw, hr, hb⟩
  | bool b =>
    cases b with
    | false => exact ⟨'f', _, rfl, by decide⟩
    | true => exact ⟨'t', _, rfl, by decide⟩
  | null => exact ⟨'n', _, rfl, by decide⟩
  | str s => exact ⟨'"', _, rfl, by decide⟩
  | arr xs => exact ⟨'[', _, rfl, by decide⟩
  | obj fs => exact ⟨'{', _, rfl, by decide⟩

theorem jsonListOf_toList : ∀ ys : JsonList, jsonListOf ys.toList = ys
  | .nil => rfl
  | .cons x xs => by
    simp only [JsonList.toList, jsonListOf]
    rw [jsonListOf_toList xs]

theorem setKey_of_not_hasKey : ∀ (fs : JsonFields) (k : JStr) (v : Json),
    fs.hasKey k = false → fs.setKey k v = appendFields fs (.cons k v .nil)
  | .nil, k, v, _ => rfl
  | .cons k2 w rest, k, v, h => by
    simp only [JsonFields.hasKey, Bool.or_eq_false_iff, decide_eq_false_iff_not] at h
    simp only [JsonFields.setKey, appendFields, if_neg h.1]
    rw [setKey_of_not_hasKey rest k v h.2]

theorem appendFields_assoc : ∀ (a b c : JsonFields),
    appendFields (appendFields a b) c = appendFields a (appendFields b c)
  | .nil, _, _ => rfl
  | .cons k v fs, b, c => by
    simp only [appendFields]
    rw [appendFields_assoc fs b c]

theorem hasKey_appendFields : ∀ (a b : JsonFields) (k : JStr),
    (appendFields a b).hasKey k = (a.hasKey k || b.hasKey k)
  | .nil, b, k => rfl
  | .cons k2 v fs, b, k => by
    simp only [appendFields, JsonFields.hasKey]
    rw [hasKey_appendFields fs b k]
    rw [Bool.or_assoc]

theorem skipJWs_cons (c : Char) (t : JStr) (h : isJsonWs c = false) :
    skipJWs (c :: t) = c :: t := by
  simp [skipJWs, h]

theorem jsize_pos (j : Json) : 1 ≤ jsize j := by
  cases j <;> simp [jsize]

theorem head_boundary (c0 : Char) (t : JStr) (h : c0.isDigit = false) :
    ∀ c, (c0 :: t).head? = some c → c.isDigit = false := by
  intro c hc
  simp only [List.head?_cons, Option.some.injEq] at hc
  rw [← hc]
  exact h

mutual
theorem parseVal_print : ∀ (j : Json) (fuel : Nat) (rest : JStr),
    jsize j ≤ fuel → wfJson j = true →
    (∀ c, rest.head? = some c → c.isDigit = false) →
    parseVal fuel (printJson j ++ rest) = some (j, rest)
  | j, fuel, rest => fun hf hwf hrest => by
    obtain ⟨f, rfl⟩ : ∃ f, fuel = f + 1 := ⟨fuel - 1, by have := jsize_pos j; omega⟩
    cases j with
    | null =>
      show parseVal (f + 1) ('n' :: 'u' :: 'l' :: 'l' :: rest) = _
      unfold parseVal
      simp [skipJWs_cons, isJsonWs]
    | bool b =>
      cases b with
      | true =>
        show parseVal (f + 1) ('t' :: 'r' :: 'u' :: 'e' :: rest) = _
        unfold parseVal
        simp [skipJWs_cons, isJsonWs]
      | false =>
        show parseVal (f + 1) ('f' :: 'a' :: 'l' :: 's' :: 'e' :: rest) = _
        unfold parseVal
        simp [skipJWs_cons, isJsonWs]
    | num i =>
      by_cases hneg : i < 0
      · have hsh : printJson (.num i) ++ rest = '-' :: (natStr i.natAbs ++ rest) := by
          show intStr i ++ rest = _
          unfold intStr
          rw [if_pos hneg]
          rfl
        have hni : -|i| = i := by rw [abs_of_nonpos hneg.le, neg_neg]
        rw [hsh]
        unfold parseVal
        simp [skipJWs_cons, isJsonWs, parseNatDigits_print i.natAbs rest hrest, hni]
      · cases hns : natStr i.natAbs with
        | nil => exact absurd hns (natStr_ne_nil _)
        | cons d ds =>
          have hd : d.isDigit = true := by
            apply natStr_digits i.natAbs
            rw [hns]
            exact List.mem_cons_self d ds
          obtain ⟨hb1, hb2, hb3, hb4, hb5, hb6, hb7, hbw, -, -⟩ := digit_dispatch d hd
          have hsh : printJson (.num i) ++ rest = d :: (ds ++ rest) := by
            show intStr i ++ rest = _
            unfold intStr
            rw [if_neg hneg, hns]
            rfl
          have hpn : parseNatDigits (d :: (ds ++ rest)) = some (i.natAbs, rest) := by
            have h0 := parseNatDigits_print i.natAbs rest hrest
            rw [hns] at h0
            simpa using h0
          have hni : ((i.natAbs : Int)) = i := by omega
          rw [hsh]
          unfold parseVal
          simp [skipJWs_cons, hbw, hb1, hb2, hb3, hb4, hb5, hb6, hb7, hd, hpn, hni]
    | str s =>
      have hsh : printJson (.str s) ++ rest = '"' :: (escList s ++ '"' :: rest) := by
        show ('"' :: (escList s ++ ['"'])) ++ rest = _
        simp
      rw [hsh]
      unfold parseVal
      simp [skipJWs_cons, isJsonWs, parseStrBody_print s [] rest]
    | arr xs =>
      cases xs with
      | nil =>
        show parseVal (f + 1) ('[' :: ']' :: rest) = _
        unfold parseVal
        simp [skipJWs_cons, isJsonWs]
      | cons x xs2 =>
        have hfx : lsize (.cons x xs2) ≤ f := by
          simp only [jsize] at hf
          omega
        have hwx : wfJsonL (.cons x xs2) = true := by simpa [wfJson] using hwf
        obtain ⟨c2, t2, hx2, hw2, hr2, -⟩ := printJson_head x
        have hpe : ∃ u, printElems (.cons x xs2) = c2 :: u := by
          cases xs2 with
          | nil =>
            refine ⟨t2, ?_⟩
            show printJson x = _
            rw [hx2]
          | cons z zs =>
            refine ⟨t2 ++ ',' :: printElems (.cons z zs), ?_⟩
            show printJson x ++ ',' :: printElems (.cons z zs) = _
            rw [hx2]
            rfl
        obtain ⟨u, hu⟩ := hpe
        have hsh : printJson (.arr (.cons x xs2)) ++ rest =
            '[' :: (c2 :: (u ++ (']' :: rest))) := by
          show ('[' :: (printElems (.cons x xs2) ++ [']'])) ++ rest = _
          rw [hu]
          simp
        have hIH := parseElems_print (.cons x xs2) f rest [] hfx hwx (by simp)
        rw [hu] at hIH
        simp only [List.cons_append] at hIH
        rw [hsh]
        unfold parseVal
        simp [skipJWs_cons, isJsonWs, skipJWs_cons c2 (u ++ (']' :: rest)) hw2,
          hr2, hIH, jsonListOf_toList]
    | obj fs =>
      cases fs with
      | nil =>
        show parseVal (f + 1) ('{' :: '}' :: rest) = _
        unfold parseVal
        simp [skipJWs_cons, isJsonWs]
      | cons k v fs2 =>
        have hfv : fsize (.cons k v fs2) ≤ f := by
          simp only [jsize] at hf
          omega
        have hwv : wfJsonF (.cons k v fs2) = true := by simpa [wfJson] using hwf
        have hpf : ∃ u, printFields (.cons k v fs2) = '"' :: u := by
          cases fs2 with
          | nil => exact ⟨escList k ++ '"' :: ':' :: printJson v, rfl⟩
          | cons k3 v3 fs3 =>
            exact ⟨escList k ++ '"' :: ':' :: printJson v ++
              ',' :: printFields (.cons k3 v3 fs3), rfl⟩
        obtain ⟨u, hu⟩ := hpf
        have hsh : printJson (.obj (.cons k v fs2)) ++ rest =
            '{' :: ('"' :: (u ++ ('}' :: rest))) := by
          show ('{' :: (printFields (.cons k v fs2) ++ ['}'])) ++ rest = _
          rw [hu]
          simp
        have hIH := parseMembers_print (.cons k v fs2) f rest .nil hfv hwv
          (by simp) (fun k3 _ => rfl)
        rw [hu] at hIH
        simp only [List.cons_append] at hIH
        rw [hsh]
        unfold parseVal
        simp [skipJWs_cons, isJsonWs, hIH, appendFields]
theorem parseElems_print : ∀ (xs : JsonList) (fuel : Nat) (rest : JStr) (acc : List Json),
    lsize xs ≤ fuel → wfJsonL xs = true → xs ≠ .nil →
    parseElems fuel (printElems xs ++ (']' :: rest)) acc =
      some (.arr (jsonListOf (acc.reverse ++ xs.toList)), rest)
  | .nil, fuel, rest, acc => fun _ _ hne => absurd rfl hne
  | .cons x xs2, fuel, rest, acc => fun hf hwf _ => by
    obtain ⟨f, rfl⟩ : ∃ f, fuel = f + 1 := ⟨fuel - 1, by simp [lsize] at hf; omega⟩
    have hfx : jsize x ≤ f := by simp only [lsize] at hf; omega
    have hw2 : wfJson x = true ∧ wfJsonL xs2 = true := by
      simpa [wfJsonL, Bool.and_eq_true] using hwf
    cases xs2 with
    | nil =>
      show parseElems (f + 1) (printJson x ++ (']' :: rest)) acc = _
      unfold parseElems
      simp [parseVal_print x f (']' :: rest) hfx hw2.1 (head_boundary ']' rest (by decide)),
        skipJWs_cons, isJsonWs, JsonList.toList]
    | cons y ys =>
      obtain ⟨c2, t2, hx2, hwc2, -, -⟩ := printJson_head y
      have hpe : ∃ u, printElems (.cons y ys) = c2 :: u := by
        cases ys with
        | nil =>
          refine ⟨t2, ?_⟩
          show printJson y = _
          rw [hx2]
        | cons z zs =>
          refine ⟨t2 ++ ',' :: printElems (.cons z zs), ?_⟩
          show printJson y ++ ',' :: printElems (.cons z zs) = _
          rw [hx2]
          rfl
      obtain ⟨u, hu⟩ := hpe
      have hsh : printElems (.cons x (.cons y ys)) ++ (']' :: rest) =
          printJson x ++ (',' :: (c2 :: (u ++ (']' :: rest)))) := by
        show (printJson x ++ ',' :: printElems (.cons y ys)) ++ (']' :: rest) = _
        rw [hu]
        simp
      have hIH := parseElems_print (.cons y ys) f rest (x :: acc)
        (by simp only [lsize] at hf ⊢; omega) hw2.2 (by simp)
      rw [hu] at hIH
      simp only [List.cons_append] at hIH
      rw [hsh]
      unfold parseElems
      simp [parseVal_print x f (',' :: (c2 :: (u ++ (']' :: rest)))) hfx hw2.1
          (head_boundary ',' _ (by decide)),
        skipJWs_cons, isJsonWs, hIH, JsonList.toList]
theorem parseMembers_print : ∀ (fs : JsonFields) (fuel : Nat) (rest : JStr) (acc : JsonFields),
    fsize fs ≤ fuel → wfJsonF fs = true → fs ≠ .nil → fieldsDisjoint acc fs →
    parseMembers fuel (printFields fs ++ ('}' :: rest)) acc =
      some (.obj (appendFields acc fs), rest)
  | .nil, fuel, rest, acc => fun _ _ hne _ => absurd rfl hne
  | .cons k v fs, fuel, rest, acc => fun hf hwf _ hdisj => by
    obtain ⟨f, rfl⟩ : ∃ f, fuel = f + 1 := ⟨fuel - 1, by simp [fsize] at hf; omega⟩
    have hfv : jsize v ≤ f := by simp only [fsize] at hf; omega
    have hw3 : fs.hasKey k = false ∧ wfJson v = true ∧ wfJsonF fs = true := by
      simpa [wfJsonF, Bool.and_eq_true, and_assoc] using hwf
    have hknotacc : acc.hasKey k = false := hdisj k (by simp [JsonFields.hasKey])
    have hsetk : acc.setKey k v = appendFields acc (.cons k v .nil) :=
      setKey_of_not_hasKey acc k v hknotacc
    cases fs with
    | nil =>
      have hsh : printFields (.cons k v .nil) ++ ('}' :: rest) =
          '"' :: (escList k ++ '"' :: (':' :: (printJson v ++ ('}' :: rest)))) := by
        show ('"' :: (escList k ++ '"' :: ':' :: printJson v)) ++ ('}' :: rest) = _
        simp
      rw [hsh]
      unfold parseMembers
      simp [parseStrBody_print, skipJWs_cons, isJsonWs,
        parseVal_print v f ('}' :: rest) hfv hw3.2.1 (head_boundary '}' rest (by decide)),
        hsetk]
    | cons k2 v2 fs2 =>
      have hdisj2 : fieldsDisjoint (acc.setKey k v) (.cons k2 v2 fs2) := by
        intro k3 h3
        rw [hsetk, hasKey_appendFields]
        have ha : acc.hasKey k3 = false := by
          apply hdisj k3
          have h3x : (decide (k2 = k3) || fs2.hasKey k3) = true := by
            simpa [JsonFields.hasKey] using h3
          simp [JsonFields.hasKey, h3x]
        have hs : (JsonFields.cons k v .nil).hasKey k3 = false := by
          simp only [JsonFields.hasKey, Bool.or_false]
          rw [decide_eq_false_iff_not]
          intro hkk
          rw [hkk] at hw3
          rw [hw3.1] at h3
          cases h3
        rw [ha, hs]
        rfl
      have hpf : ∃ u, printFields (.cons k2 v2 fs2) = '"' :: u := by
        cases fs2 with
        | nil => exact ⟨escList k2 ++ '"' :: ':' :: printJson v2, rfl⟩
        | cons k4 v4 fs4 =>
          exact ⟨escList k2 ++ '"' :: ':' :: printJson v2 ++
            ',' :: printFields (.cons k4 v4 fs4), rfl⟩
      obtain ⟨u, hu⟩ := hpf
      have hsh : printFields (.cons k v (.cons k2 v2 fs2)) ++ ('}' :: rest) =
          '"' :: (escList k ++ '"' :: (':' :: (printJson v ++
            (',' :: ('"' :: (u ++ ('}' :: rest))))))) := by
        show ('"' :: (escList k ++ '"' :: ':' :: printJson v ++
          ',' :: printFields (.cons k2 v2 fs2))) ++ ('}' :: rest) = _
        rw [hu]
        simp
      have hIH := parseMembers_print (.cons k2 v2 fs2) f rest (acc.setKey k v)
        (by simp only [fsize] at hf ⊢; omega) hw3.2.2 (by simp) hdisj2
      rw [hu] at hIH
      simp only [List.cons_append] at hIH
      rw [hsetk] at hIH
      rw [hsh]
      unfold parseMembers
      simp [parseStrBody_print, skipJWs_cons, isJsonWs,
        parseVal_print v f (',' :: ('"' :: (u ++ ('}' :: rest)))) hfv hw3.2.1
          (head_boundary ',' _ (by decide)),
        hIH, hsetk, appendFields_assoc, appendFields]
end

mutual
theorem jsize_le_print : ∀ (j : Json), jsize j ≤ (printJson j).length
  | .null => by decide
  | .bool true => by decide
  | .bool false => by decide
  | .num i => by
    have h : 0 < (natStr i.natAbs).length := List.length_pos.mpr (natStr_ne_nil _)
    show jsize (.num i) ≤ (intStr i).length
    unfold intStr
    by_cases hneg : i < 0
    · rw [if_pos hneg]
      simp [jsize]
    · rw [if_neg hneg]
      simp only [jsize]
      omega
  | .str s => by
    show jsize (.str s) ≤ ('"' :: escList s ++ ['"']).length
    simp [jsize]
  | .arr xs => by
    have h := lsize_le_print xs
    show jsize (.arr xs) ≤ ('[' :: printElems xs ++ [']']).length
    simp only [jsize, List.length_cons, List.length_append, List.length_singleton]
    omega
  | .obj fs => by
    have h := fsize_le_print fs
    show jsize (.obj fs) ≤ ('{' :: printFields fs ++ ['}']).length
    simp only [jsize, List.length_cons, List.length_append, List.length_singleton]
    omega
theorem lsize_le_print : ∀ (xs : JsonList), lsize xs ≤ (printElems xs).length + 1
  | .nil => by simp [lsize]
  | .cons x .nil => by
    have h := jsize_le_print x
    show lsize (.cons x .nil) ≤ (printJson x).length + 1
    simp only [lsize]
    omega
  | .cons x (.cons y ys) => by
    have h1 := jsize_le_print x
    have h2 := lsize_le_print (.cons y ys)
    show lsize (.cons x (.cons y ys)) ≤
      (printJson x ++ ',' :: printElems (.cons y ys)).length + 1
    simp only [lsize, List.length_append, List.length_cons] at h2 ⊢
    omega
theorem fsize_le_print : ∀ (fs : JsonFields), fsize fs ≤ (printFields fs).length + 1
  | .nil => by simp [fsize]
  | .cons k v .nil => by
    have h := jsize_le_print v
    show fsize (.cons k v .nil) ≤ ('"' :: escList k ++ '"' :: ':' :: printJson v).length + 1
    simp only [fsize, List.length_cons, List.length_append]
    omega
  | .cons k v (.cons k2 v2 fs) => by
    have h1 := jsize_le_print v
    have h2 := fsize_le_print (.cons k2 v2 fs)
    show fsize (.cons k v (.cons k2 v2 fs)) ≤
      ('"' :: escList k ++ '"' :: ':' :: printJson v ++
        ',' :: printFields (.cons k2 v2 fs)).length + 1
    simp only [fsize, List.length_cons, List.length_append] at h2 ⊢
    omega
end

theorem jsonParse_print (j : Json) (hwf : wfJson j = true) :
    jsonParse (printJson j) = some j := by
  have hb : jsize j ≤ 2 * (printJson j).length + 2 := by
    have := jsize_le_print j
    omega
  have h := parseVal_print j (2 * (printJson j).length + 2) [] hb hwf
    (fun c hc => by simp at hc)
  rw [List.append_nil] at h
  unfold jsonParse
  rw [h]
  simp [skipJWs]

theorem startsTicks_ne (c : Char) (X : JStr) (h : c ≠ tickChar) :
    startsTicks (c :: X) = false := by
  cases X with
  | nil => rfl
  | cons b Y =>
    cases Y with
    | nil => rfl
    | cons d Z => simp [startsTicks, h]

theorem noFinish : ∀ (v : JStr), (∀ c, c ∈ v → c ≠ tickChar) →
    (∀ c, v.getLast? = some c → isJsWs c = false) → v ≠ [] →
    startsTicks (List.dropWhile isJsWs
      (v ++ ('\n' :: tickChar :: tickChar :: tickChar :: []))) = false
  | [], _, _, hne => absurd rfl hne
  | [c], hnt, hlast, _ => by
    have hcw : isJsWs c = false := hlast c rfl
    have hct : c ≠ tickChar := hnt c (List.mem_cons_self c [])
    simp only [List.cons_append, List.nil_append]
    rw [List.dropWhile_cons, if_neg (by simp [hcw])]
    exact startsTicks_ne c _ hct
  | c :: b :: w, hnt, hlast, _ => by
    have hct : c ≠ tickChar := hnt c (List.mem_cons_self _ _)
    have hIH := noFinish (b :: w) (fun d hd => hnt d (List.mem_cons_of_mem c hd))
      (fun d hd => hlast d (by rw [List.getLast?_cons_cons]; exact hd)) (by simp)
    by_cases hws : isJsWs c = true
    · simp only [List.cons_append] at hIH ⊢
      rw [List.dropWhile_cons, if_pos hws]
      exact hIH
    · simp only [List.cons_append]
      rw [List.dropWhile_cons, if_neg hws]
      exact startsTicks_ne c _ hct

theorem lazyScan_run : ∀ (v acc : JStr), (∀ c, c ∈ v → c ≠ tickChar) →
    (∀ c, v.getLast? = some c → isJsWs c = false) →
    lazyScan acc (v ++ ('\n' :: tickChar :: tickChar :: tickChar :: [])) =
      some (acc.reverse ++ v)
  | [], acc, _, _ => by
    simp only [List.nil_append]
    unfold lazyScan
    rw [if_pos (by decide)]
    simp
  | c :: v, acc, hnt, hlast => by
    have hfin := noFinish (c :: v) hnt hlast (by simp)
    have hIH := lazyScan_run v (c :: acc) (fun d hd => hnt d (List.mem_cons_of_mem c hd))
      (fun d hd => hlast d (by
        cases v with
        | nil => simp at hd
        | cons b w => rw [List.getLast?_cons_cons]; exact hd))
    simp only [List.cons_append] at hfin hIH ⊢
    unfold lazyScan
    rw [if_neg (by simp [hfin])]
    rw [hIH]
    simp

theorem trimChars_fix (c1 c2 : Char) (mid : JStr) (h1 : isJsWs c1 = false)
    (h2 : isJsWs c2 = false) :
    trimChars (c1 :: (mid ++ [c2])) = c1 :: (mid ++ [c2]) := by
  unfold trimChars
  rw [List.dropWhile_cons, if_neg (by simp [h1])]
  have hrev : (c1 :: (mid ++ [c2])).reverse = c2 :: (mid.reverse ++ [c1]) := by simp
  rw [hrev, List.dropWhile_cons, if_neg (by simp [h2]), ← hrev, List.reverse_reverse]

theorem trim_fenceWrap (s : JStr) : trimChars (fenceWrap s) = fenceWrap s := by
  have hshape : fenceWrap s =
      tickChar :: ((("``json\n".data) ++ s ++ ("\n``".data)) ++ [tickChar]) := by
    unfold fenceWrap
    have e1 : ("```json\n".data) = tickChar :: ("``json\n".data) := by decide
    have e2 : ("\n```".data) = ("\n``".data) ++ [tickChar] := by decide
    rw [e1, e2]
    simp
  rw [hshape, trimChars_fix _ _ _ (by decide) (by decide)]

theorem fenceMatch_fenceWrap (s : JStr) (hnt : ∀ c, c ∈ s → c ≠ tickChar)
    (hhead : ∀ c, s.head? = some c → isJsWs c = false)
    (hlast : ∀ c, s.getLast? = some c → isJsWs c = false) (hne : s ≠ []) :
    fenceMatch (fenceWrap s) = some s := by
  obtain ⟨c0, s0, rfl⟩ : ∃ c0 s0, s = c0 :: s0 := by
    cases s with
    | nil => exact absurd rfl hne
    | cons c0 s0 => exact ⟨c0, s0, rfl⟩
  have hshape : fenceWrap (c0 :: s0) =
      tickChar :: tickChar :: tickChar :: 'j' :: 's' :: 'o' :: 'n' :: '\n' ::
        ((c0 :: s0) ++ ('\n' :: tickChar :: tickChar :: tickChar :: [])) := by
    unfold fenceWrap
    have e1 : ("```json\n".data) =
        tickChar :: tickChar :: tickChar :: 'j' :: 's' :: 'o' :: 'n' :: '\n' :: [] := by
      decide
    have e2 : ("\n```".data) = '\n' :: tickChar :: tickChar :: tickChar :: [] := by decide
    rw [e1, e2]
    simp
  have hc0 : isJsWs c0 = false := hhead c0 rfl
  have hnl : isJsWs '\n' = true := by decide
  have hdw : List.dropWhile isJsWs
      ('\n' :: ((c0 :: s0) ++ ('\n' :: tickChar :: tickChar :: tickChar :: []))) =
      (c0 :: s0) ++ ('\n' :: tickChar :: tickChar :: tickChar :: []) := by
    simp only [List.cons_append]
    rw [List.dropWhile_cons, if_pos hnl, List.dropWhile_cons, if_neg (by simp [hc0])]
  have hrun := lazyScan_run (c0 :: s0) [] hnt hlast
  have htf : tryFenceAt (tickChar :: tickChar :: tickChar :: 'j' :: 's' :: 'o' :: 'n' ::
      '\n' :: ((c0 :: s0) ++ ('\n' :: tickChar :: tickChar :: tickChar :: []))) =
      some (c0 :: s0) := by
    unfold tryFenceAt
    simp only [List.cons_append] at hdw hrun
    simp [hdw, hrun]
  rw [hshape]
  unfold fenceMatch
  rw [htf]

theorem jsonCandidate_fenceWrap (s : JStr)
    (hnt : ∀ c, c ∈ s → c ≠ tickChar)
    (hhead : ∀ c, s.head? = some c → isJsWs c = false)
    (hlast : ∀ c, s.getLast? = some c → isJsWs c = false)
    (hne : s ≠ []) :
    jsonCandidate (fenceWrap s) = s := by
  have h1 : trimChars (fenceWrap s) = fenceWrap s := trim_fenceWrap s
  have h2 : fenceMatch (fenceWrap s) = some s := fenceMatch_fenceWrap s hnt hhead hlast hne
  unfold jsonCandidate
  simp [h1, h2, hne]

theorem toList_jsonListOf : ∀ (l : List Json), (jsonListOf l).toList = l
  | [] => rfl
  | x :: l => by
    simp only [jsonListOf, JsonList.toList]
    rw [toList_jsonListOf l]

theorem sanitizeNode_nodeToJson (tok : JStr) (n : SNode)
    (h1 : jsTruthy n.id = true) (h2 : jsTruthy n.title = true)
    (h3 : jsTruthy n.content = true) :
    sanitizeNode tok (nodeToJson n) = { n with completed := false } := by
  have e1 : jsGet (nodeToJson n) ("id".data) = some n.id := rfl
  have e2 : jsGet (nodeToJson n) ("title".data) = some n.title := rfl
  have e3 : jsGet (nodeToJson n) ("content".data) = some n.content := rfl
  have e4 : jsGet (nodeToJson n) ("connections".data) =
      some (.arr (jsonListOf n.connections)) := rfl
  have e5 : jsGet (nodeToJson n) ("references".data) =
      some (.arr (jsonListOf n.references)) := rfl
  unfold sanitizeNode
  rw [e1, e2, e3, e4, e5]
  simp [jsOr, h1, h2, h3, arrElemsOr, toList_jsonListOf]

theorem mapIdx_sanitize (rng : Nat → JStr) : ∀ (ns : List SNode) (i : Nat),
    (∀ n, n ∈ ns → jsTruthy n.id = true ∧ jsTruthy n.title = true ∧
      jsTruthy n.content = true) →
    mapIdxFrom (fun i2 m => sanitizeNode (rng i2) m) i (ns.map nodeToJson) =
      ns.map (fun n => { n with completed := false })
  | [], _, _ => rfl
  | n :: ns, i, h => by
    have hn := h n (List.mem_cons_self n ns)
    simp only [List.map_cons, mapIdxFrom]
    rw [sanitizeNode_nodeToJson (rng i) n hn.1 hn.2.1 hn.2.2]
    rw [mapIdx_sanitize rng ns (i + 1) (fun m hm => h m (List.mem_cons_of_mem n hm))]

/-- C8 (counterexample to the claim as stated): the fenced round trip is not
universal.  A canonical roadmap whose title is the non-empty string made of
three backticks serializes to text whose inner backticks derail the fence
regex, so extraction hands `JSON.parse` a malformed candidate and the
pipeline fails instead of reproducing the roadmap. -/
theorem claim_C8_counterexample :
    buildRoadmap 7 (fun _ => ("t".data))
      (fenceWrap (serializeRoadmap
        { id := ("r".data), generatedAt := 1,
          title := .str (tickChar :: tickChar :: tickChar :: []),
          description := .str [], nodes := [], sources := [] })) =
      .error malformedErrMsg := by decide

/-- C8 (amended): for every roadmap whose serialization contains no backtick
character, whose JSON tree is duplicate-key free, whose title is truthy and
whose description is truthy or the empty string, and whose nodes have truthy
id, title and content, serializing as fenced JSON and running the full
extract-validate-sanitize pipeline reproduces the title, the description and
every node (in particular each node's id, title and content) with `completed`
reset, while `id` and `generatedAt` are regenerated and `sources` is emptied. -/
theorem claim_C8_amended (R : Roadmap) (now : Nat) (rng : Nat → JStr)
    (hnt : ∀ c, c ∈ serializeRoadmap R → c ≠ tickChar)
    (hwf : wfJson (roadmapToJson R) = true)
    (htitle : jsTruthy R.title = true)
    (hdesc : jsTruthy R.description = true ∨ R.description = Json.str [])
    (hnodes : ∀ n, n ∈ R.nodes → jsTruthy n.id = true ∧ jsTruthy n.title = true ∧
      jsTruthy n.content = true) :
    buildRoadmap now rng (fenceWrap (serializeRoadmap R)) =
      .ok { id := ("roadmap_".data) ++ natStr now
            generatedAt := now
            title := R.title
            description := R.description
            nodes := R.nodes.map (fun n => { n with completed := false })
            sources := [] } := by
  obtain ⟨X, hX⟩ : ∃ X, serializeRoadmap R = '{' :: (X ++ ['}']) := ⟨_, rfl⟩
  have hhead : ∀ c, (serializeRoadmap R).head? = some c → isJsWs c = false := by
    intro c hc
    rw [hX] at hc
    simp only [List.head?_cons, Option.some.injEq] at hc
    rw [← hc]
    decide
  have hlast : ∀ c, (serializeRoadmap R).getLast? = some c → isJsWs c = false := by
    intro c hc
    rw [hX] at hc
    have hg : (('{' :: (X ++ ['}'])) : JStr).getLast? = some '}' := by
      rw [show (('{' :: (X ++ ['}'])) : JStr) = ('{' :: X) ++ ['}'] from by simp]
      exact List.getLast?_concat _
    rw [hg] at hc
    simp only [Option.some.injEq] at hc
    rw [← hc]
    decide
  have hne : serializeRoadmap R ≠ [] := by
    rw [hX]
    simp
  have hcand : jsonCandidate (fenceWrap (serializeRoadmap R)) = serializeRoadmap R :=
    jsonCandidate_fenceWrap _ hnt hhead hlast hne
  have hparse : jsonParse (serializeRoadmap R) = some (roadmapToJson R) :=
    jsonParse_print _ hwf
  have hsafe : safeJsonParse (fenceWrap (serializeRoadmap R)) = .ok (roadmapToJson R) := by
    unfold safeJsonParse
    simp [hcand, hne, hparse]
  have hgt : jsGet (roadmapToJson R) ("title".data) = some R.title := rfl
  have hgn : jsGet (roadmapToJson R) ("nodes".data) =
      some (.arr (jsonListOf (R.nodes.map nodeToJson))) := rfl
  have hproc : processStreamedResponse (fenceWrap (serializeRoadmap R)) =
      .ok (setSources (roadmapToJson R)) := by
    have hjt : jsTruthy (roadmapToJson R) = true := rfl
    unfold processStreamedResponse
    rw [hsafe]
    simp [hgt, hgn, optTruthy, isArrOpt, htitle, hjt]
  have hg1 : jsGet (setSources (roadmapToJson R)) ("title".data) = some R.title := rfl
  have hg2 : jsGet (setSources (roadmapToJson R)) ("description".data) =
      some R.description := rfl
  have hg3 : jsGet (setSources (roadmapToJson R)) ("nodes".data) =
      some (.arr (jsonListOf (R.nodes.map nodeToJson))) := rfl
  have hg4 : jsGet (setSources (roadmapToJson R)) ("sources".data) =
      some (.arr .nil) := rfl
  have htitr : jsOr (some R.title) (.str ("Untitled Roadmap".data)) = R.title := by
    simp [jsOr, htitle]
  have hdescr : jsOr (some R.description) (.str []) = R.description := by
    rcases hdesc with h | h
    · simp [jsOr, h]
    · rw [h]
      rfl
  have hnod : sanitizeNodes rng
      (arrElemsOr (some (Json.arr (jsonListOf (R.nodes.map nodeToJson))))) =
      R.nodes.map (fun n => { n with completed := false }) := by
    rw [show arrElemsOr (some (Json.arr (jsonListOf (R.nodes.map nodeToJson)))) =
        R.nodes.map nodeToJson from by simp [arrElemsOr, toList_jsonListOf]]
    exact mapIdx_sanitize rng R.nodes 0 hnodes
  have hsrc : arrElemsOr (some (Json.arr JsonList.nil)) = ([] : List Json) := rfl
  unfold buildRoadmap
  rw [hproc]
  simp [hg1, hg2, hg3, hg4, htitr, hdescr, hnod, hsrc, toList_jsonListOf]

set_option maxRecDepth 10000 in
/-- C8 witness: the fenced round trip at the sample roadmap, with every
hypothesis of the amended theorem discharged by evaluation. -/
theorem claim_C8_witness :
    (∀ c, c ∈ serializeRoadmap sampleRoadmap → c ≠ tickChar) ∧
    wfJson (roadmapToJson sampleRoadmap) = true ∧
    jsTruthy sampleRoadmap.title = true ∧
    buildRoadmap 5 (fun _ => ("t".data)) (fenceWrap (serializeRoadmap sampleRoadmap)) =
      .ok { id := ("roadmap_".data) ++ natStr 5
            generatedAt := 5
            title := sampleRoadmap.title
            description := sampleRoadmap.description
            nodes := sampleRoadmap.nodes.map (fun n => { n with completed := false })
            sources := [] } :=
  ⟨by decide, by decide, by decide,
   claim_C8_amended sampleRoadmap 5 (fun _ => ("t".data)) (by decide) (by decide)
     (by decide) (Or.inr rfl) (by decide)⟩
